import Mathlib

/-!
Shallow embedding of the settlement core of the BTC UP/DOWN parimutuel
prediction market (Go sources: internal/domain, internal/repository,
internal/service).  Monetary values are modelled as exact rationals (ℚ):
the Go code uses shopspring/decimal, an exact arbitrary-precision decimal,
so +, -, ×, ÷ agree with ℚ arithmetic; the only rounding operation the
code uses is `RoundDown(4)`, truncation toward zero at 4 fractional
digits, modelled by `roundDown4` below.
-/

/-- Truncation toward zero at 4 fractional digits, the semantics of
shopspring decimal `RoundDown(4)` used throughout the Go code. -/
def roundDown4 (x : ℚ) : ℚ :=
  if 0 ≤ x then (⌊x * 10000⌋ : ℚ) / 10000 else (⌈x * 10000⌉ : ℚ) / 10000

theorem roundDown4_le (x : ℚ) (hx : 0 ≤ x) : roundDown4 x ≤ x := by
  rw [roundDown4, if_pos hx]
  rw [div_le_iff₀ (by norm_num : (0:ℚ) < 10000)]
  exact Int.floor_le (x * 10000)

theorem roundDown4_nonneg (x : ℚ) (hx : 0 ≤ x) : 0 ≤ roundDown4 x := by
  rw [roundDown4, if_pos hx]
  positivity

theorem lt_roundDown4_add (x : ℚ) (hx : 0 ≤ x) : x - 1 / 10000 < roundDown4 x := by
  rw [roundDown4, if_pos hx]
  rw [sub_lt_iff_lt_add, div_add_div_same, lt_div_iff₀ (by norm_num : (0:ℚ) < 10000)]
  have h := Int.lt_floor_add_one (x * 10000)
  linarith [h]

/-! ## Domain types (internal/domain) -/

/-- Direction of a wager (domain.Outcome, values "UP" / "DOWN"). -/
inductive Outcome
  | up
  | down
deriving DecidableEq

/-- Market lifecycle status (domain.MarketStatus). -/
inductive MarketStatus
  | pending
  | open'
  | closed'
  | resolved
  | suspended
  | cancelled
deriving DecidableEq

/-- Bet lifecycle status (domain.BetStatus; DB strings
"open" / "won" / "lost" / "cashed_out" / "cancelled"). -/
inductive BetStatus
  | active
  | won
  | lost
  | exited
  | refunded
deriving DecidableEq

/-- Status of an mm_positions row (a Go string: "open" | "closed" | "won" | "lost"). -/
inductive MMStatus
  | open'
  | closed'
  | won
  | lost
deriving DecidableEq

/-- Wallet type tag (wallets.wallet_type, NULL for users, 'platform_mm' for the house). -/
inductive WalletType
  | platformMM
deriving DecidableEq

/-- Audit transaction kind (domain.TxType). -/
inductive TxType
  | deposit
  | withdraw
  | betLock
  | betUnlock
  | payout
  | cashout
  | commission
  | refund
  | bonus
deriving DecidableEq

/-- Reason tag recorded with an MM injection. -/
inductive MMReason
  | seedUp
  | seedDown
  | rebalanceUp
  | rebalanceDown
deriving DecidableEq

/-- Sentinel domain errors (domain.Err*), compared identity-wise in the Go code. -/
inductive Err
  | betTooSmall
  | invalidOutcome
  | insufficientBalance
  | walletNotFound
  | marketNotFound
  | marketNotOpen
  | noOpenMarket
  | betNotActive
  | forbidden
  | mmDailyLossExceeded
  | mmReserveInsufficient
deriving DecidableEq

/-- Package-level parimutuel commission constant `domain.CommissionRate`
(decimal.NewFromFloat(0.03)); used by the odds derivation. -/
def CommissionRate : ℚ := 3 / 100

/-- Package-level cashout fee constant `domain.CashoutFeeRate`
(decimal.NewFromFloat(0.05)). -/
def CashoutFeeRate : ℚ := 5 / 100

/-- One prediction round (domain.Market).  Times are integers (Unix-style);
only `closesAt` matters for the claims. -/
structure Market where
  id : Nat
  status : MarketStatus
  openPrice : Option ℚ
  closePrice : Option ℚ
  result : Option Outcome
  poolUp : ℚ
  poolDown : ℚ
  closesAt : ℤ
deriving DecidableEq

/-- Market.TotalPool. -/
def Market.TotalPool (m : Market) : ℚ := m.poolUp + m.poolDown

/-- Market.effectivePool: total pool after deducting the package-level
commission constant. -/
def Market.effectivePool (m : Market) : ℚ := m.TotalPool * (1 - CommissionRate)

/-- Market.UpOdds: payout multiplier for UP, zero when the UP pool is empty. -/
def Market.UpOdds (m : Market) : ℚ :=
  if m.poolUp = 0 then 0 else m.effectivePool / m.poolUp

/-- Market.DownOdds: payout multiplier for DOWN, zero when the DOWN pool is empty. -/
def Market.DownOdds (m : Market) : ℚ :=
  if m.poolDown = 0 then 0 else m.effectivePool / m.poolDown

/-- Market.OddsFor. -/
def Market.OddsFor (m : Market) (o : Outcome) : ℚ :=
  match o with
  | .up => m.UpOdds
  | .down => m.DownOdds

/-- Market.IsOpen. -/
def Market.IsOpen (m : Market) : Bool := m.status = MarketStatus.open'

/-- A user wager (domain.Bet). -/
structure Bet where
  id : Nat
  userId : Nat
  marketId : Nat
  direction : Outcome
  amount : ℚ
  oddsAtEntry : ℚ
  status : BetStatus
  payout : Option ℚ
  cashoutAmount : Option ℚ
  cashoutFee : Option ℚ
deriving DecidableEq

/-- Bet.IsActive. -/
def Bet.IsActive (b : Bet) : Bool := b.status = BetStatus.active

/-- Bet.CalculateExitAmount: net TRY received on early cashout, floored to
4 decimals; zero when either odds figure is zero (division guard). -/
def Bet.CalculateExitAmount (b : Bet) (currentOdds : ℚ) : ℚ :=
  if b.oddsAtEntry = 0 ∨ currentOdds = 0 then 0
  else
    let gross := b.amount * currentOdds / b.oddsAtEntry
    let fee := gross * CashoutFeeRate
    let net := gross - fee
    roundDown4 net

/-- Bet.CalculateExitFee: the fee portion only, floored to 4 decimals. -/
def Bet.CalculateExitFee (b : Bet) (currentOdds : ℚ) : ℚ :=
  if b.oddsAtEntry = 0 ∨ currentOdds = 0 then 0
  else roundDown4 (b.amount * currentOdds / b.oddsAtEntry * CashoutFeeRate)

/-- Platform liquidity-injection record (domain.MMLog, table mm_positions). -/
structure MMLog where
  id : Nat
  marketId : Nat
  direction : Outcome
  amount : ℚ
  status : MMStatus
  pnl : Option ℚ
  reason : Option MMReason
  createdDay : Nat
deriving DecidableEq

/-- A wallet row (domain.Wallet).  `userId` is the nullable DB column
wallets.user_id (NULL for the platform MM wallet). -/
structure Wallet where
  id : Nat
  userId : Option Nat
  walletType : Option WalletType
  balance : ℚ
  locked : ℚ
deriving DecidableEq

/-- Wallet.Available. -/
def Wallet.Available (w : Wallet) : ℚ := w.balance - w.locked

/-- Audit record (domain.Transaction, table wallet_transactions). -/
structure Transaction where
  walletId : Nat
  type : TxType
  amount : ℚ
  balanceBefore : ℚ
  balanceAfter : ℚ
  refBet : Option Nat
deriving DecidableEq

/-- Market-maker configuration (config.MMConfig). -/
structure MMConfig where
  maxExposurePerMarket : ℚ
  maxDailyLoss : ℚ
  minReserve : ℚ
  triggerThreshold : ℚ
  minMMBet : ℚ

/-- Wallet / fee configuration (config.WalletConfig). -/
structure WalletConfig where
  commissionRate : ℚ
  cashoutFeeRate : ℚ

/-- Root configuration (config.Config), restricted to the parts the
settlement core reads. -/
structure Config where
  mm : MMConfig
  wallet : WalletConfig

/-- The ledger-store state visible to the settlement core: wallets,
markets, bets, mm_positions, house_treasury rows (market id paired with
commission_earned), and the wallet_transactions audit log. -/
structure SysState where
  wallets : List Wallet
  markets : List Market
  bets : List Bet
  mmPositions : List MMLog
  treasury : List (Nat × ℚ)
  txLog : List Transaction
  nextBetId : Nat
deriving DecidableEq

/-! ## Repository layer (internal/repository)

Each SQL statement is modelled by its effect on the corresponding list of
rows.  An UPDATE mutates every row matching its WHERE clause; a point
SELECT returns the first matching row. -/

namespace WalletRepo

/-- WalletRepository.GetByUserID: `SELECT * FROM wallets WHERE user_id = $1`. -/
def getByUserID (ws : List Wallet) (uid : Nat) : Except Err Wallet :=
  match ws.find? (fun w => w.userId = some uid) with
  | some w => .ok w
  | none => .error .walletNotFound

/-- WalletRepository.AddBalance:
`UPDATE wallets SET balance = balance + $1 WHERE user_id = $2`.
The row count is not checked, so a non-matching user id silently
changes nothing. -/
def addBalance (ws : List Wallet) (uid : Nat) (amount : ℚ) : List Wallet :=
  ws.map (fun w => if w.userId = some uid then { w with balance := w.balance + amount } else w)

/-- WalletRepository.DeductBalance: locks the user row, checks
`balance - locked`, then subtracts. -/
def deductBalance (ws : List Wallet) (uid : Nat) (amount : ℚ) : Except Err (List Wallet) :=
  match ws.find? (fun w => w.userId = some uid) with
  | none => .error .walletNotFound
  | some w =>
    if w.Available < amount then .error .insufficientBalance
    else .ok (ws.map (fun v =>
      if v.userId = some uid then { v with balance := v.balance - amount } else v))

/-- WalletRepository.GetPlatformWallet:
`SELECT * FROM wallets WHERE wallet_type = 'platform_mm'`. -/
def getPlatformWallet (ws : List Wallet) : Except Err Wallet :=
  match ws.find? (fun w => w.walletType = some WalletType.platformMM) with
  | some w => .ok w
  | none => .error .walletNotFound

/-- WalletRepository.DeductPlatformBalance: locks the platform row, checks
the balance, then subtracts. -/
def deductPlatformBalance (ws : List Wallet) (amount : ℚ) : Except Err (List Wallet) :=
  match ws.find? (fun w => w.walletType = some WalletType.platformMM) with
  | none => .error .walletNotFound
  | some w =>
    if w.balance < amount then .error .insufficientBalance
    else .ok (ws.map (fun v =>
      if v.walletType = some WalletType.platformMM then { v with balance := v.balance - amount } else v))

/-- WalletRepository.GetMarketMMExposure: sum of open mm_positions amounts
for a market. -/
def getMarketMMExposure (ps : List MMLog) (mid : Nat) : ℚ :=
  ((ps.filter (fun p => p.marketId = mid ∧ p.status = MMStatus.open')).map MMLog.amount).sum

end WalletRepo

namespace MarketRepo

/-- MarketRepository.GetByID. -/
def getByID (ms : List Market) (mid : Nat) : Except Err Market :=
  match ms.find? (fun m => m.id = mid) with
  | some m => .ok m
  | none => .error .marketNotFound

/-- MarketRepository.UpdatePools: the row lock is
`SELECT id FROM markets WHERE id = $1 AND status = 'open' FOR UPDATE`
(note: no closes_at condition), failing MarketNotOpen when no row
matches; the UPDATE then adds `amount` to the selected pool side. -/
def updatePools (ms : List Market) (mid : Nat) (o : Outcome) (amount : ℚ) :
    Except Err (List Market) :=
  if ms.any (fun m => m.id = mid ∧ m.status = MarketStatus.open') then
    .ok (ms.map (fun m =>
      if m.id = mid then
        match o with
        | .up => { m with poolUp := m.poolUp + amount }
        | .down => { m with poolDown := m.poolDown + amount }
      else m))
  else .error .marketNotOpen

/-- MarketRepository.Resolve:
`UPDATE markets SET status='resolved', close_price=$1, result=$2, resolved_at=now()
WHERE id = $3 AND status IN ('open','closed')`, failing MarketNotFound when
no row was affected.  This statement runs on the raw DB connection
(`r.db.ExecContext`), not on the resolution transaction. -/
def resolve (ms : List Market) (mid : Nat) (closePrice : ℚ) (winner : Outcome) :
    Except Err (List Market) :=
  if ms.any (fun m => m.id = mid ∧
      (m.status = MarketStatus.open' ∨ m.status = MarketStatus.closed')) then
    .ok (ms.map (fun m =>
      if m.id = mid ∧ (m.status = MarketStatus.open' ∨ m.status = MarketStatus.closed') then
        { m with status := MarketStatus.resolved, closePrice := some closePrice,
                 result := some winner }
      else m))
  else .error .marketNotFound

end MarketRepo

namespace BetRepo

/-- BetRepository.GetByID; a missing bet is reported as BetNotActive. -/
def getByID (bs : List Bet) (bid : Nat) : Except Err Bet :=
  match bs.find? (fun b => b.id = bid) with
  | some b => .ok b
  | none => .error .betNotActive

/-- BetRepository.GetByMarketAndOutcome:
`SELECT * FROM bets WHERE market_id = $1 AND direction = $2`
(note: no status filter). -/
def getByMarketAndOutcome (bs : List Bet) (mid : Nat) (o : Outcome) : List Bet :=
  bs.filter (fun b => b.marketId = mid ∧ b.direction = o)

/-- BetRepository.UpdateStatus: set status, payout and resolved_at by bet id. -/
def updateStatus (bs : List Bet) (bid : Nat) (status : BetStatus) (payout : Option ℚ) :
    List Bet :=
  bs.map (fun b => if b.id = bid then { b with status := status, payout := payout } else b)

/-- BetRepository.ExitBet:
`UPDATE bets SET status='cashed_out', cashout_amount=$1, cashout_fee=$2
WHERE id = $3 AND status = 'open'`, failing BetNotActive when no row was
affected. -/
def exitBetRow (bs : List Bet) (bid : Nat) (exitAmount cashoutFee : ℚ) :
    Except Err (List Bet) :=
  if bs.any (fun b => b.id = bid ∧ b.status = BetStatus.active) then
    .ok (bs.map (fun b =>
      if b.id = bid ∧ b.status = BetStatus.active then
        { b with status := BetStatus.exited, cashoutAmount := some exitAmount,
                 cashoutFee := some cashoutFee }
      else b))
  else .error .betNotActive

/-- BetRepository.GetPlatformDailyExposure: sums mm_positions amounts
`WHERE status = 'open' AND created_at >= date_trunc('day', now())` —
only positions that are still open count. -/
def getPlatformDailyExposure (ps : List MMLog) (today : Nat) : ℚ :=
  ((ps.filter (fun p => p.status = MMStatus.open' ∧ p.createdDay = today)).map MMLog.amount).sum

/-- BetRepository.CreatePlatformBet: inserts an mm_positions row with
status 'open'.  This INSERT runs on the raw DB connection
(`r.db.ExecContext`), not on the caller's transaction. -/
def createPlatformBet (ps : List MMLog) (mid : Nat) (o : Outcome) (amount : ℚ)
    (reason : MMReason) (today : Nat) : List MMLog :=
  ps ++ [{ id := ps.length, marketId := mid, direction := o, amount := amount,
           status := MMStatus.open', pnl := none, reason := some reason,
           createdDay := today }]

/-- BetRepository.UpdateStatusBulk: bulk update of still-open bets of one
direction in a market. -/
def updateStatusBulk (bs : List Bet) (mid : Nat) (dir : Outcome) (status : BetStatus) :
    List Bet :=
  bs.map (fun b =>
    if b.marketId = mid ∧ b.direction = dir ∧ b.status = BetStatus.active then
      { b with status := status }
    else b)

end BetRepo

/-! ## Service layer (internal/service)

Errors roll the enclosing transaction back, so a failing service call
leaves the ledger state unchanged; the `Except` result models exactly
that.  Reads issued on the raw DB connection (`r.db`, e.g. the audit-log
balance reads and `GetPlatformWallet`) observe the committed state from
before the transaction, hence they take the entry state `st` rather than
the in-transaction lists. -/

/-- Winner determination in ResolutionService.resolveMarket, Step 2:
UP when the open price is missing or the close is at-or-above it. -/
def resolutionWinner (openPrice : Option ℚ) (closePrice : ℚ) : Outcome :=
  match openPrice with
  | none => Outcome.up
  | some p => if p ≤ closePrice then Outcome.up else Outcome.down

/-- Distributable profit in resolveMarket, Step 3: the loser pool after
commission at the configured rate. -/
def resolutionDistributable (cfg : Config) (loserPool : ℚ) : ℚ :=
  loserPool * (1 - cfg.wallet.commissionRate)

/-- Commission amount recorded in the house treasury by resolveMarket,
Step 3: the configured rate applied to the total pool. -/
def resolutionCommissionAmt (cfg : Config) (totalPool : ℚ) : ℚ :=
  totalPool * cfg.wallet.commissionRate

/-- ResolutionService.calculatePayout: stake plus the bet's share of the
distributable profit, floored to 4 decimals; errors when the winner pool
is zero. -/
def calculatePayout (bet : Bet) (winnerPool distributable : ℚ) : Except Err ℚ :=
  if winnerPool = 0 then .error .marketNotFound
  else .ok (roundDown4 (bet.amount + bet.amount / winnerPool * distributable))

/-- The winner-payout loop of resolveMarket, Step 5: for each winning bet,
credit the payout, write a `payout` audit entry (whose balance fields come
from a raw-DB read of the pre-transaction wallet `base`), and mark the bet
won. -/
def payoutLoop (base : List Wallet) (winnerPool distributable : ℚ) :
    List Bet → List Wallet → List Bet → List Transaction →
    Except Err (List Wallet × List Bet × List Transaction)
  | [], ws, bs, tl => .ok (ws, bs, tl)
  | bet :: rest, ws, bs, tl =>
    match calculatePayout bet winnerPool distributable with
    | .error e => .error e
    | .ok payout =>
      let ws' := WalletRepo.addBalance ws bet.userId payout
      match WalletRepo.getByUserID base bet.userId with
      | .error e => .error e
      | .ok w =>
        let txn : Transaction := { walletId := w.id, type := TxType.payout,
                                   amount := payout, balanceBefore := w.balance,
                                   balanceAfter := w.balance + payout,
                                   refBet := some bet.id }
        payoutLoop base winnerPool distributable rest ws'
          (BetRepo.updateStatus bs bet.id BetStatus.won (some payout)) (tl ++ [txn])

/-- ResolutionService.resolvePlatformBets: settle each still-open MM
position of the market.  A winning position is credited to the platform
wallet through WalletRepository.AddBalance keyed on
`platformWallet.UserID` — the Go struct field is a non-nullable uuid.UUID,
and scanning the platform wallet's NULL user_id leaves the zero UUID,
modelled by `platformUid := pw.userId.getD 0`.  A losing position records
`pnl = -amount` with no wallet mutation. -/
def settleMMLoop (mid : Nat) (platformUid : Nat) (winner : Outcome)
    (winnerPool distributable : ℚ) :
    List MMLog → List Wallet → Except Err (List MMLog × List Wallet)
  | [], ws => .ok ([], ws)
  | pos :: rest, ws =>
    if pos.marketId = mid ∧ pos.status = MMStatus.open' then
      if pos.direction = winner then
        match calculatePayout { id := pos.id, userId := platformUid, marketId := mid,
                                direction := pos.direction, amount := pos.amount,
                                oddsAtEntry := 0, status := BetStatus.active,
                                payout := none, cashoutAmount := none,
                                cashoutFee := none } winnerPool distributable with
        | .error e => .error e
        | .ok payout =>
          match settleMMLoop mid platformUid winner winnerPool distributable rest
              (WalletRepo.addBalance ws platformUid payout) with
          | .error e => .error e
          | .ok (rs, wsFin) =>
            .ok ({ pos with status := MMStatus.won, pnl := some (payout - pos.amount) } :: rs,
                 wsFin)
      else
        match settleMMLoop mid platformUid winner winnerPool distributable rest ws with
        | .error e => .error e
        | .ok (rs, wsFin) =>
          .ok ({ pos with status := MMStatus.lost, pnl := some (-pos.amount) } :: rs, wsFin)
    else
      match settleMMLoop mid platformUid winner winnerPool distributable rest ws with
      | .error e => .error e
      | .ok (rs, wsFin) => .ok (pos :: rs, wsFin)

/-- ResolutionService.resolveMarket: settlement of one expired market.
All repository writes except one run on the resolution transaction; the
final market-row update (MarketRepository.Resolve) runs on the raw DB
connection and therefore commits independently.  `commitOk` models the
outcome of the final `tx.Commit()`: since the transaction's rows (wallets,
bets, mm_positions, house_treasury, wallet_transactions) and the raw-DB
write's row (the markets row) are disjoint, a failed commit keeps the
entry state for the former while the market-row update stays visible. -/
def resolveMarket (commitOk : Bool) (cfg : Config) (st : SysState)
    (market : Market) (closePrice : ℚ) : Except Err SysState :=
  let winner := resolutionWinner market.openPrice closePrice
  let loser := match winner with | .up => Outcome.down | .down => Outcome.up
  let winnerPool := match winner with | .up => market.poolUp | .down => market.poolDown
  let loserPool := match winner with | .up => market.poolDown | .down => market.poolUp
  let commissionAmt := resolutionCommissionAmt cfg market.TotalPool
  let distributable := resolutionDistributable cfg loserPool
  let winningBets := BetRepo.getByMarketAndOutcome st.bets market.id winner
  match payoutLoop st.wallets winnerPool distributable winningBets st.wallets st.bets st.txLog with
  | .error e => .error e
  | .ok (ws, bs, tl) =>
    let bs' := BetRepo.updateStatusBulk bs market.id loser BetStatus.lost
    match WalletRepo.getPlatformWallet st.wallets with
    | .error e => .error e
    | .ok pw =>
      match settleMMLoop market.id (pw.userId.getD 0) winner winnerPool distributable
          st.mmPositions ws with
      | .error e => .error e
      | .ok (ps, wsFin) =>
        let treas := st.treasury ++ [(market.id, commissionAmt)]
        match MarketRepo.resolve st.markets market.id closePrice winner with
        | .error e => .error e
        | .ok ms =>
          if commitOk then
            .ok { wallets := wsFin, markets := ms, bets := bs', mmPositions := ps,
                  treasury := treas, txLog := tl, nextBetId := st.nextBetId }
          else
            .ok { st with markets := ms }

/-- BetService.PlaceBet: validation, wallet deduction, market check, odds
snapshot, pool update, bet insert and audit entry, all on one transaction.
The minimum stake is the hard-coded `decimal.NewFromInt(10)`; the
configured values play no role in this check. -/
def placeBet (cfg : Config) (st : SysState) (uid : Nat) (mid : Nat)
    (dir : Outcome) (amount : ℚ) : Except Err SysState :=
  let minBet : ℚ := 10
  if amount < minBet then .error .betTooSmall
  else
    match WalletRepo.deductBalance st.wallets uid amount with
    | .error e => .error e
    | .ok ws =>
      match MarketRepo.getByID st.markets mid with
      | .error e => .error e
      | .ok market =>
        if market.IsOpen then
          let odds0 := market.OddsFor dir
          let oddsAtEntry := if odds0 = 0 then 1 else odds0
          match MarketRepo.updatePools st.markets mid dir amount with
          | .error e => .error e
          | .ok ms =>
            let bet : Bet := { id := st.nextBetId, userId := uid, marketId := mid,
                               direction := dir, amount := amount,
                               oddsAtEntry := oddsAtEntry, status := BetStatus.active,
                               payout := none, cashoutAmount := none,
                               cashoutFee := none }
            match WalletRepo.getByUserID st.wallets uid with
            | .error e => .error e
            | .ok w =>
              let txn : Transaction := { walletId := w.id, type := TxType.betLock,
                                         amount := amount, balanceBefore := w.balance,
                                         balanceAfter := w.balance - amount,
                                         refBet := some bet.id }
              .ok { wallets := ws, markets := ms, bets := st.bets ++ [bet],
                    mmPositions := st.mmPositions, treasury := st.treasury,
                    txLog := st.txLog ++ [txn], nextBetId := st.nextBetId + 1 }
        else .error .marketNotOpen

/-- BetService.ExitBet: early cashout.  Owner and liveness checks, exit
maths from the odds snapshot, then — on one transaction — the guarded
cashed_out update, removal of the original stake from the pool, wallet
credit of the net amount, and a `cashout` audit entry. -/
def exitBet (cfg : Config) (st : SysState) (bid : Nat) (uid : Nat) :
    Except Err SysState :=
  match BetRepo.getByID st.bets bid with
  | .error e => .error e
  | .ok bet =>
    if bet.userId ≠ uid then .error .forbidden
    else if bet.IsActive then
      match MarketRepo.getByID st.markets bet.marketId with
      | .error e => .error e
      | .ok market =>
        if market.IsOpen then
          let odds0 := market.OddsFor bet.direction
          let currentOdds := if odds0 = 0 then 1 else odds0
          let exitAmount := bet.CalculateExitAmount currentOdds
          let fee := bet.CalculateExitFee currentOdds
          match BetRepo.exitBetRow st.bets bid exitAmount fee with
          | .error e => .error e
          | .ok bs =>
            match MarketRepo.updatePools st.markets bet.marketId bet.direction (-bet.amount) with
            | .error e => .error e
            | .ok ms =>
              let ws := WalletRepo.addBalance st.wallets uid exitAmount
              match WalletRepo.getByUserID st.wallets uid with
              | .error e => .error e
              | .ok w =>
                let txn : Transaction := { walletId := w.id, type := TxType.cashout,
                                           amount := exitAmount,
                                           balanceBefore := w.balance,
                                           balanceAfter := w.balance + exitAmount,
                                           refBet := some bid }
                .ok { wallets := ws, markets := ms, bets := bs,
                      mmPositions := st.mmPositions, treasury := st.treasury,
                      txLog := st.txLog ++ [txn], nextBetId := st.nextBetId }
        else .error .marketNotOpen
    else .error .betNotActive

/-- MMService.placePlatformBet: the four guards, then — deduction from the
platform wallet and the pool update on one transaction, while the
mm_positions INSERT (BetRepository.CreatePlatformBet) runs on the raw DB
connection.  `commitOk` models the final `tx.Commit()`: on a failed commit
the transactional writes vanish but the inserted position row stays. -/
def placePlatformBet (commitOk : Bool) (cfg : Config) (today : Nat) (st : SysState)
    (mid : Nat) (o : Outcome) (amount : ℚ) (reason : MMReason) : Except Err SysState :=
  if amount < cfg.mm.minMMBet then .ok st
  else
    let dailyExposure := BetRepo.getPlatformDailyExposure st.mmPositions today
    if cfg.mm.maxDailyLoss < dailyExposure + amount then .error .mmDailyLossExceeded
    else
      match WalletRepo.getPlatformWallet st.wallets with
      | .error e => .error e
      | .ok pw =>
        if pw.balance < cfg.mm.minReserve + amount then .error .mmReserveInsufficient
        else
          let marketExposure := WalletRepo.getMarketMMExposure st.mmPositions mid
          if cfg.mm.maxExposurePerMarket < marketExposure + amount then .ok st
          else
            match WalletRepo.deductPlatformBalance st.wallets amount with
            | .error e => .error e
            | .ok ws =>
              match MarketRepo.updatePools st.markets mid o amount with
              | .error e => .error e
              | .ok ms =>
                let ps := BetRepo.createPlatformBet st.mmPositions mid o amount reason today
                if commitOk then
                  .ok { st with wallets := ws, markets := ms, mmPositions := ps }
                else
                  .ok { st with mmPositions := ps }

/-! ## Price oracle (internal/service/price_service.go) -/

/-- Outcome of one exchange fetch: a parsed price, or any of the isolated
failure modes (network error, non-200 status, malformed payload, empty
field). -/
inductive FetchOutcome
  | ok (price : ℚ)
  | failed
deriving DecidableEq

/-- One configured exchange paired with the outcome of its fetch. -/
structure ExchangeResult where
  weight : ℚ
  result : FetchOutcome
deriving DecidableEq

/-- Failure modes of GetWeightedPrice.  shopspring decimal `Div` panics on
a zero divisor, so the division by a zero weight sum is surfaced as the
distinct outcome `divisionByZeroPanic`. -/
inductive PriceErr
  | allSourcesFailed
  | divisionByZeroPanic
deriving DecidableEq

/-- The source-collection loop of GetWeightedPrice: failed fetches and
zero prices are skipped; every other result contributes its price and
weight. -/
def collectSources : List ExchangeResult → List (ℚ × ℚ)
  | [] => []
  | e :: rest =>
    match e.result with
    | .failed => collectSources rest
    | .ok p => if p = 0 then collectSources rest else (p, e.weight) :: collectSources rest

/-- PriceService.GetWeightedPrice (cache-miss path), as a function of the
fetch outcomes: error when no source contributed, otherwise the weighted
sum divided by the sum of the contributing weights. -/
def GetWeightedPrice (l : List ExchangeResult) : Except PriceErr ℚ :=
  let sources := collectSources l
  let sumWeighted := (sources.map (fun s => s.1 * s.2)).sum
  let sumWeights := (sources.map (fun s => s.2)).sum
  if sources = [] then .error .allSourcesFailed
  else if sumWeights = 0 then .error .divisionByZeroPanic
  else .ok (sumWeighted / sumWeights)

/-! ## Traces and conservation bookkeeping -/

/-- A bet-placement request against a fixed market (domain.PlaceBetRequest). -/
structure PlaceReq where
  userId : Nat
  direction : Outcome
  amount : ℚ

/-- Apply a sequence of bet placements to one market.  A failed placement
rolls its transaction back, leaving the ledger unchanged. -/
def applyPlaces (cfg : Config) (mid : Nat) : List PlaceReq → SysState → SysState
  | [], st => st
  | r :: rest, st =>
    applyPlaces cfg mid rest
      (match placeBet cfg st r.userId mid r.direction r.amount with
       | .ok s => s
       | .error _ => st)

/-- Sum of non-platform wallet balances in a wallet list. -/
def userSumW (l : List Wallet) : ℚ :=
  ((l.filter (fun w => ¬ w.walletType = some WalletType.platformMM)).map Wallet.balance).sum

/-- Sum of platform-MM wallet balances in a wallet list. -/
def platSumW (l : List Wallet) : ℚ :=
  ((l.filter (fun w => w.walletType = some WalletType.platformMM)).map Wallet.balance).sum

/-- Sum of all user wallet balances (every wallet that is not the
platform MM wallet). -/
def userWalletSum (st : SysState) : ℚ := userSumW st.wallets

/-- Balance of the platform MM wallet (summed, in case of several). -/
def platformWalletSum (st : SysState) : ℚ := platSumW st.wallets

/-- House-treasury commission recorded for one market. -/
def treasuryFor (st : SysState) (mid : Nat) : ℚ :=
  ((st.treasury.filter (fun r => r.1 = mid)).map Prod.snd).sum

/-- The conservation quantity of spec §8 for one market: total user wallet
delta, plus platform wallet delta, plus the house treasury recorded for
the market. -/
def conservationSum (st0 st : SysState) (mid : Nat) : ℚ :=
  (userWalletSum st - userWalletSum st0) + (platformWalletSum st - platformWalletSum st0)
    + treasuryFor st mid

/-- Operations of the MM daily-loss scenario: guarded platform injections
and resolution steps.  A failed operation leaves the ledger unchanged. -/
inductive MMOp
  | inject (marketId : Nat) (o : Outcome) (amount : ℚ) (reason : MMReason)
  | resolveStep (marketId : Nat) (closePrice : ℚ)

/-- One step of the MM scenario. -/
def mmApply (cfg : Config) (today : Nat) (st : SysState) : MMOp → SysState
  | .inject mid o a reason =>
    match placePlatformBet true cfg today st mid o a reason with
    | .ok s => s
    | .error _ => st
  | .resolveStep mid cp =>
    match MarketRepo.getByID st.markets mid with
    | .error _ => st
    | .ok m =>
      match resolveMarket true cfg st m cp with
      | .ok s => s
      | .error _ => st

/-- Run a list of MM-scenario operations. -/
def mmApplyAll (cfg : Config) (today : Nat) : List MMOp → SysState → SysState
  | [], st => st
  | op :: rest, st => mmApplyAll cfg today rest (mmApply cfg today st op)

/-- Total TRY injected by the platform on a given day, across all
position statuses: the cumulative daily MM spend. -/
def dailyInjectedTotal (st : SysState) (today : Nat) : ℚ :=
  ((st.mmPositions.filter (fun p => p.createdDay = today)).map MMLog.amount).sum

/-- Convenience constructor for a plain open bet. -/
def mkBet (bid uid mid : Nat) (dir : Outcome) (amount oddsAtEntry : ℚ) : Bet :=
  { id := bid, userId := uid, marketId := mid, direction := dir, amount := amount,
    oddsAtEntry := oddsAtEntry, status := BetStatus.active, payout := none,
    cashoutAmount := none, cashoutFee := none }

/-- A representative configuration with the documented default values
(commission 3%, cashout fee 5%). -/
def stdCfg : Config :=
  { mm := { maxExposurePerMarket := 10000, maxDailyLoss := 5000, minReserve := 1000,
            triggerThreshold := 4 / 5, minMMBet := 10 },
    wallet := { commissionRate := 3 / 100, cashoutFeeRate := 5 / 100 } }

/-! ## Error-shape lemmas for the repository layer -/

theorem deductBalance_error_cases {ws : List Wallet} {uid : Nat} {a : ℚ} {e : Err}
    (h : WalletRepo.deductBalance ws uid a = .error e) :
    e = Err.walletNotFound ∨ e = Err.insufficientBalance := by
  rw [WalletRepo.deductBalance] at h
  split at h
  · injection h with h'
    exact Or.inl h'.symm
  · split at h
    · injection h with h'
      exact Or.inr h'.symm
    · exact absurd h (by simp)

theorem marketGetByID_error_cases {ms : List Market} {mid : Nat} {e : Err}
    (h : MarketRepo.getByID ms mid = .error e) : e = Err.marketNotFound := by
  rw [MarketRepo.getByID] at h
  split at h
  · exact absurd h (by simp)
  · injection h with h'
    exact h'.symm

theorem updatePools_error_cases {ms : List Market} {mid : Nat} {o : Outcome} {a : ℚ} {e : Err}
    (h : MarketRepo.updatePools ms mid o a = .error e) : e = Err.marketNotOpen := by
  rw [MarketRepo.updatePools] at h
  split at h
  · exact absurd h (by simp)
  · injection h with h'
    exact h'.symm

theorem getByUserID_error_cases {ws : List Wallet} {uid : Nat} {e : Err}
    (h : WalletRepo.getByUserID ws uid = .error e) : e = Err.walletNotFound := by
  rw [WalletRepo.getByUserID] at h
  split at h
  · exact absurd h (by simp)
  · injection h with h'
    exact h'.symm

/-! ## Claim C10 — hard-coded minimum stake -/

/-- C10: PlaceBet fails with BetTooSmall exactly when the stake is below
the hard-coded 10 TRY floor, for every configuration and ledger state; a
rejected placement happens before the transaction writes anything, so no
state change is committed (the `.error` outcome carries no state). -/
theorem C10_min_stake_hardcoded (cfg : Config) (st : SysState) (uid mid : Nat)
    (dir : Outcome) (amount : ℚ) :
    placeBet cfg st uid mid dir amount = .error Err.betTooSmall ↔ amount < 10 := by
  constructor
  · intro h
    by_contra hlt
    rw [placeBet] at h
    rw [if_neg hlt] at h
    split at h
    · rename_i e hd
      injection h with h'
      rw [h'] at hd
      rcases deductBalance_error_cases hd with he | he <;> exact absurd he (by simp)
    · rename_i ws hd
      split at h
      · rename_i e hm
        injection h with h'
        rw [h'] at hm
        exact absurd (marketGetByID_error_cases hm) (by simp)
      · rename_i market hm
        split at h
        · split at h
          · rename_i e hu
            injection h with h'
            rw [h'] at hu
            exact absurd (updatePools_error_cases hu) (by simp)
          · split at h
            · rename_i e hw
              injection h with h'
              rw [h'] at hw
              exact absurd (getByUserID_error_cases hw) (by simp)
            · exact absurd h (by simp)
        · exact absurd h (by simp)
  · intro h
    rw [placeBet, if_pos h]

/-! ## Claim C9 — odds commission is the package constant -/

/-- C9: the odds derivation (effectivePool, UpOdds, DownOdds, hence the
odds_at_entry snapshot) always applies the package-level constant
commission 0.03 and takes no configuration input, while the resolution
arithmetic applies the configured Wallet.CommissionRate; the two rates
coincide exactly when the configured rate is 0.03. -/
theorem C9_odds_constant_commission :
    (∀ m : Market, m.effectivePool = m.TotalPool * (1 - CommissionRate)) ∧
    (∀ m : Market,
      m.UpOdds = if m.poolUp = 0 then 0 else m.TotalPool * (1 - CommissionRate) / m.poolUp) ∧
    (∀ m : Market,
      m.DownOdds =
        if m.poolDown = 0 then 0 else m.TotalPool * (1 - CommissionRate) / m.poolDown) ∧
    CommissionRate = 3 / 100 ∧
    (∀ (cfg : Config) (loserPool : ℚ),
      resolutionDistributable cfg loserPool = loserPool * (1 - cfg.wallet.commissionRate)) ∧
    (∀ (cfg : Config) (totalPool : ℚ),
      resolutionCommissionAmt cfg totalPool = totalPool * cfg.wallet.commissionRate) ∧
    (∀ cfg : Config,
      CommissionRate = cfg.wallet.commissionRate ↔ cfg.wallet.commissionRate = 3 / 100) := by
  refine ⟨fun m => rfl, fun m => rfl, fun m => rfl, rfl, fun cfg l => rfl, fun cfg t => rfl,
    fun cfg => ?_⟩
  constructor
  · intro h; rw [← h]; rfl
  · intro h; rw [h]; rfl

/-! ## Claim C5 — parimutuel winner rule and payout formula -/

/-- C5: the winner is UP when the open price is null or the close price
is at-or-above it, DOWN otherwise; each winning stake `a` is paid
`roundDown4 (a + a / winnerPool * (loserPool * (1 - c)))`; on the spec's
example (pools 1200 / 500, commission 0.03, winner UP) the stakes 1000 and
200 receive 1404.1666 and 280.8333 TRY. -/
theorem C5_parimutuel_payout :
    (∀ cp : ℚ, resolutionWinner none cp = Outcome.up) ∧
    (∀ p cp : ℚ,
      resolutionWinner (some p) cp = if p ≤ cp then Outcome.up else Outcome.down) ∧
    (∀ (cfg : Config) (b : Bet) (winnerPool loserPool : ℚ),
      calculatePayout b winnerPool (resolutionDistributable cfg loserPool) =
        if winnerPool = 0 then Except.error Err.marketNotFound
        else Except.ok (roundDown4 (b.amount + b.amount / winnerPool *
               (loserPool * (1 - cfg.wallet.commissionRate))))) ∧
    calculatePayout (mkBet 1 1 1 Outcome.up 1000 1) 1200
        (resolutionDistributable stdCfg 500) = .ok (14041666 / 10000) ∧
    calculatePayout (mkBet 2 3 1 Outcome.up 200 1) 1200
        (resolutionDistributable stdCfg 500) = .ok (2808333 / 10000) := by
  refine ⟨fun cp => rfl, fun p cp => rfl, fun cfg b w l => rfl, ?_, ?_⟩
  · rw [calculatePayout, if_neg (by norm_num)]
    norm_num [mkBet, resolutionDistributable, stdCfg, roundDown4]
  · rw [calculatePayout, if_neg (by norm_num)]
    norm_num [mkBet, resolutionDistributable, stdCfg, roundDown4]

/-! ## Claim C3 — late bets between closes_at and the sweep -/

/-- A market whose closing time (100) has passed while its row still has
status='open': the window between closes_at and the resolution sweep. -/
def lateMarket : Market :=
  { id := 1, status := MarketStatus.open', openPrice := some 50000, closePrice := none,
    result := none, poolUp := 0, poolDown := 0, closesAt := 100 }

/-- Ledger state containing `lateMarket` and one funded user wallet. -/
def lateState : SysState :=
  { wallets := [{ id := 10, userId := some 1, walletType := none, balance := 1000,
                  locked := 0 }],
    markets := [lateMarket], bets := [], mmPositions := [], treasury := [], txLog := [],
    nextBetId := 0 }

/-- C3 (failing input): a bet attempted at any time `t ≥ closes_at`, while
the market row still has status='open', is accepted and committed — the
wallet is debited, the pool is increased and the bet row is inserted —
because the bet-placement row lock selects on status='open' alone and
never consults closes_at.  The claim instead requires the attempt to fail
with MarketNotOpen. -/
theorem C3_late_bet_goes_through :
    ∀ t : ℤ, lateMarket.closesAt ≤ t →
      placeBet stdCfg lateState 1 1 Outcome.up 100 =
        .ok { wallets := [{ id := 10, userId := some 1, walletType := none, balance := 900,
                            locked := 0 }],
              markets := [{ lateMarket with poolUp := 100 }],
              bets := [mkBet 0 1 1 Outcome.up 100 1],
              mmPositions := [], treasury := [],
              txLog := [{ walletId := 10, type := TxType.betLock, amount := 100,
                          balanceBefore := 1000, balanceAfter := 900, refBet := some 0 }],
              nextBetId := 1 } := by
  intro t ht
  norm_num [placeBet, WalletRepo.deductBalance, lateState, lateMarket, Wallet.Available,
    MarketRepo.getByID, Market.IsOpen, Market.OddsFor, Market.UpOdds, Market.effectivePool,
    Market.TotalPool, CommissionRate, MarketRepo.updatePools, WalletRepo.getByUserID, mkBet,
    List.find?, List.any]

/-- Witness for C3: the attempt time 100 is exactly closes_at. -/
theorem C3_late_bet_goes_through_witness :
    placeBet stdCfg lateState 1 1 Outcome.up 100 =
      .ok { wallets := [{ id := 10, userId := some 1, walletType := none, balance := 900,
                          locked := 0 }],
            markets := [{ lateMarket with poolUp := 100 }],
            bets := [mkBet 0 1 1 Outcome.up 100 1],
            mmPositions := [], treasury := [],
            txLog := [{ walletId := 10, type := TxType.betLock, amount := 100,
                        balanceBefore := 1000, balanceAfter := 900, refBet := some 0 }],
            nextBetId := 1 } :=
  C3_late_bet_goes_through 100 (by norm_num [lateMarket])

/-! ## Claim C7 — oracle re-normalisation -/

/-- C7 (amended): whenever the weights of the succeeding non-zero-price
fetches do not sum to zero — guaranteed in particular when every
configured weight is positive — GetWeightedPrice returns exactly the
weighted sum divided by the sum of the available weights (never the
configured total); it fails with AllSourcesDown exactly when no fetch
succeeded with a non-zero price; and on the spec's example (weights
50 / 30 / 20, Binance down, prices 91000 and 92000) it returns 91400. -/
theorem C7_renormalised_weighted_mean :
    (∀ l : List ExchangeResult,
      ¬ ((collectSources l).map Prod.snd).sum = 0 →
        GetWeightedPrice l =
          .ok (((collectSources l).map (fun s => s.1 * s.2)).sum /
               ((collectSources l).map Prod.snd).sum)) ∧
    (∀ l : List ExchangeResult,
      GetWeightedPrice l = .error PriceErr.allSourcesFailed ↔ collectSources l = []) ∧
    GetWeightedPrice [⟨50, FetchOutcome.failed⟩, ⟨30, FetchOutcome.ok 91000⟩,
        ⟨20, FetchOutcome.ok 92000⟩] = .ok 91400 := by
  refine ⟨?_, ?_, ?_⟩
  · intro l hw
    have hne : ¬ collectSources l = [] := by
      intro h
      rw [h] at hw
      simp at hw
    rw [GetWeightedPrice]
    simp only [if_neg hne, if_neg hw]
  · intro l
    rw [GetWeightedPrice]
    by_cases hne : collectSources l = []
    · simp [hne]
    · simp only [if_neg hne]
      by_cases hw : ((collectSources l).map Prod.snd).sum = 0
      · simp [hw, hne]
      · simp [hw, hne]
  · norm_num [GetWeightedPrice, collectSources]
    intro h
    exact absurd h (by simp)

/-- Witness for C7: the spec's one-source-down example satisfies the
nonzero-available-weight hypothesis. -/
theorem C7_renormalised_weighted_mean_witness :
    GetWeightedPrice [⟨50, FetchOutcome.failed⟩, ⟨30, FetchOutcome.ok 91000⟩,
        ⟨20, FetchOutcome.ok 92000⟩] =
      .ok (((collectSources [⟨50, FetchOutcome.failed⟩, ⟨30, FetchOutcome.ok 91000⟩,
              ⟨20, FetchOutcome.ok 92000⟩]).map (fun s => s.1 * s.2)).sum /
           ((collectSources [⟨50, FetchOutcome.failed⟩, ⟨30, FetchOutcome.ok 91000⟩,
              ⟨20, FetchOutcome.ok 92000⟩]).map Prod.snd).sum) :=
  C7_renormalised_weighted_mean.1
    [⟨50, FetchOutcome.failed⟩, ⟨30, FetchOutcome.ok 91000⟩, ⟨20, FetchOutcome.ok 92000⟩]
    (by norm_num [collectSources])

/-- C7 (counterexample): weights (100, 0, 0) are a legal configuration
(they sum to 100), and with the weight-100 exchange down the succeeding
subset S is non-empty, yet the call returns neither the weighted mean nor
the AllSourcesDown failure: it divides by the zero sum of available
weights, which panics in shopspring decimal. -/
theorem C7_counterexample :
    ¬ collectSources [⟨100, FetchOutcome.failed⟩, ⟨0, FetchOutcome.ok 91000⟩,
        ⟨0, FetchOutcome.ok 92000⟩] = [] ∧
    GetWeightedPrice [⟨100, FetchOutcome.failed⟩, ⟨0, FetchOutcome.ok 91000⟩,
        ⟨0, FetchOutcome.ok 92000⟩] = .error PriceErr.divisionByZeroPanic := by
  constructor
  · norm_num [collectSources]
    simp
  · norm_num [GetWeightedPrice, collectSources]
    intro h
    exact absurd h (by simp)

/-! ## List helpers for the settlement proofs -/

theorem map_noop {α : Type} (f : α → α) :
    ∀ l : List α, (∀ x ∈ l, f x = x) → l.map f = l
  | [], _ => rfl
  | a :: l, h => by
    rw [List.map_cons, h a (by simp), map_noop f l (fun x hx => h x (by simp [hx]))]

theorem map_middle {α : Type} (f : α → α) (pre post : List α) (a : α)
    (hpre : ∀ x ∈ pre, f x = x) (hpost : ∀ x ∈ post, f x = x) :
    (pre ++ a :: post).map f = pre ++ f a :: post := by
  rw [List.map_append, List.map_cons, map_noop f pre hpre, map_noop f post hpost]

theorem find?_middle {α : Type} (p : α → Bool) (pre post : List α) (a : α)
    (hpre : ∀ x ∈ pre, ¬ p x = true) (ha : p a = true) :
    (pre ++ a :: post).find? p = some a := by
  induction pre with
  | nil => simp [List.find?_cons, ha]
  | cons y ys ih =>
    have hy : p y = false := by
      have := hpre y (by simp)
      simpa using this
    rw [List.cons_append, List.find?_cons, hy]
    exact ih (fun x hx => hpre x (by simp [hx]))

/-! ## Claim C6 — early exit -/

/-- C6: for an open bet with positive entry odds and positive current
odds, early exit computes gross = amount × odds / odds_at_entry, takes the
5% fee, floors the net to 4 decimals, and in one atomic unit marks the bet
cashed_out (guarded by status='open'), subtracts the original stake — not
the net — from the bet's pool side, credits the net to the user wallet and
appends a cashout audit entry; a bet that is not open fails BetNotActive;
on the spec's example (stake 500, entry odds 1, current odds 1.5, fee 5%)
the credited net is 712.5 and the fee is 37.5. -/
theorem C6_early_exit :
    (∀ (cfg : Config) (st : SysState) (bpre bpost : List Bet) (b : Bet)
       (wpre wpost : List Wallet) (w : Wallet) (m : Market) (bid uid : Nat),
      st.bets = bpre ++ b :: bpost →
      (∀ x ∈ bpre, ¬ x.id = bid) →
      (∀ x ∈ bpost, ¬ x.id = bid) →
      b.id = bid →
      b.userId = uid →
      b.status = BetStatus.active →
      st.markets = [m] →
      m.id = b.marketId →
      m.status = MarketStatus.open' →
      st.wallets = wpre ++ w :: wpost →
      (∀ x ∈ wpre, ¬ x.userId = some uid) →
      (∀ x ∈ wpost, ¬ x.userId = some uid) →
      w.userId = some uid →
      ¬ b.oddsAtEntry = 0 →
      ¬ m.OddsFor b.direction = 0 →
      exitBet cfg st bid uid =
        .ok { wallets := wpre ++
                { w with balance := w.balance +
                    b.CalculateExitAmount (m.OddsFor b.direction) } :: wpost,
              markets := [(match b.direction with
                           | Outcome.up => { m with poolUp := m.poolUp + -b.amount }
                           | Outcome.down => { m with poolDown := m.poolDown + -b.amount })],
              bets := bpre ++
                { b with status := BetStatus.exited,
                         cashoutAmount := some (b.CalculateExitAmount (m.OddsFor b.direction)),
                         cashoutFee := some (b.CalculateExitFee (m.OddsFor b.direction)) }
                :: bpost,
              mmPositions := st.mmPositions, treasury := st.treasury,
              txLog := st.txLog ++
                [{ walletId := w.id, type := TxType.cashout,
                   amount := b.CalculateExitAmount (m.OddsFor b.direction),
                   balanceBefore := w.balance,
                   balanceAfter := w.balance + b.CalculateExitAmount (m.OddsFor b.direction),
                   refBet := some bid }],
              nextBetId := st.nextBetId }) ∧
    (∀ (cfg : Config) (st : SysState) (bid uid : Nat) (b : Bet),
      st.bets.find? (fun x => x.id = bid) = some b →
      b.userId = uid →
      ¬ b.status = BetStatus.active →
      exitBet cfg st bid uid = .error Err.betNotActive) ∧
    (mkBet 0 1 1 Outcome.up 500 1).CalculateExitAmount (3 / 2) = 1425 / 2 ∧
    (mkBet 0 1 1 Outcome.up 500 1).CalculateExitFee (3 / 2) = 75 / 2 := by
  refine ⟨?_, ?_, ?_, ?_⟩
  · intro cfg st bpre bpost b wpre wpost w m bid uid hb hbpre hbpost hbid howner hact hm hmid
      hopen hw hwpre hwpost hwuid hodds hcur
    have hfb : st.bets.find? (fun x => x.id = bid) = some b := by
      rw [hb]
      exact find?_middle _ _ _ _ (fun x hx => by simpa using hbpre x hx) (by simp [hbid])
    have hfm : st.markets.find? (fun x => x.id = b.marketId) = some m := by
      rw [hm]
      simp [List.find?, hmid]
    have hfw : st.wallets.find? (fun x => x.userId = some uid) = some w := by
      rw [hw]
      exact find?_middle _ _ _ _ (fun x hx => by simpa using hwpre x hx) (by simp [hwuid])
    have hany : st.bets.any (fun x => x.id = bid ∧ x.status = BetStatus.active) = true := by
      rw [hb]
      exact List.any_eq_true.2 ⟨b, by simp, by simp [hbid, hact]⟩
    have hexrow : BetRepo.exitBetRow st.bets bid
        (b.CalculateExitAmount (m.OddsFor b.direction))
        (b.CalculateExitFee (m.OddsFor b.direction)) =
        .ok (bpre ++
          { b with status := BetStatus.exited,
                   cashoutAmount := some (b.CalculateExitAmount (m.OddsFor b.direction)),
                   cashoutFee := some (b.CalculateExitFee (m.OddsFor b.direction)) }
          :: bpost) := by
      rw [BetRepo.exitBetRow, if_pos hany, hb,
        map_middle _ _ _ _ (fun x hx => by simp [hbpre x hx])
          (fun x hx => by simp [hbpost x hx])]
      simp [hbid, hact]
    have hany2 : st.markets.any
        (fun x => x.id = b.marketId ∧ x.status = MarketStatus.open') = true := by
      rw [hm]
      exact List.any_eq_true.2 ⟨m, by simp, by simp [hmid, hopen]⟩
    have hupd : MarketRepo.updatePools st.markets b.marketId b.direction (-b.amount) =
        .ok [(match b.direction with
              | Outcome.up => { m with poolUp := m.poolUp + -b.amount }
              | Outcome.down => { m with poolDown := m.poolDown + -b.amount })] := by
      rw [MarketRepo.updatePools, if_pos hany2, hm]
      cases b.direction <;> simp [hmid]
    have haddb : WalletRepo.addBalance st.wallets uid
        (b.CalculateExitAmount (m.OddsFor b.direction)) =
        wpre ++
          { w with balance := w.balance + b.CalculateExitAmount (m.OddsFor b.direction) }
          :: wpost := by
      rw [WalletRepo.addBalance, hw,
        map_middle _ _ _ _ (fun x hx => by simp [hwpre x hx])
          (fun x hx => by simp [hwpost x hx])]
      simp [hwuid]
    simp only [exitBet, BetRepo.getByID, hfb]
    rw [if_neg (show ¬ b.userId ≠ uid by simp [howner])]
    rw [if_pos (show b.IsActive = true by simp [Bet.IsActive, hact])]
    simp only [MarketRepo.getByID, hfm]
    rw [if_pos (show m.IsOpen = true by simp [Market.IsOpen, hopen])]
    simp only [if_neg hcur]
    simp only [hexrow, hupd, haddb, WalletRepo.getByUserID, hfw]
  · intro cfg st bid uid b hfb howner hnact
    simp only [exitBet, BetRepo.getByID, hfb]
    rw [if_neg (show ¬ b.userId ≠ uid by simp [howner])]
    rw [if_neg (show ¬ b.IsActive = true by simp [Bet.IsActive, hnact])]
  · norm_num [mkBet, Bet.CalculateExitAmount, CashoutFeeRate, roundDown4]
  · norm_num [mkBet, Bet.CalculateExitFee, CashoutFeeRate, roundDown4]

/-- Concrete open bet used by the early-exit witness. -/
def exitDemoBet : Bet := mkBet 5 1 1 Outcome.up 500 1

/-- Concrete open market used by the early-exit witness. -/
def exitDemoMarket : Market :=
  { id := 1, status := MarketStatus.open', openPrice := some 50000, closePrice := none,
    result := none, poolUp := 500, poolDown := 500, closesAt := 1000 }

/-- Concrete user wallet used by the early-exit witness. -/
def exitDemoWallet : Wallet :=
  { id := 10, userId := some 1, walletType := none, balance := 100, locked := 0 }

/-- Concrete ledger used by the early-exit witness. -/
def exitDemoState : SysState :=
  { wallets := [exitDemoWallet], markets := [exitDemoMarket], bets := [exitDemoBet],
    mmPositions := [], treasury := [], txLog := [], nextBetId := 6 }

/-- Witness for C6 at a concrete ledger. -/
theorem C6_early_exit_witness :
    exitBet stdCfg exitDemoState 5 1 =
      .ok { wallets := [{ exitDemoWallet with
                          balance := exitDemoWallet.balance +
                                       exitDemoBet.CalculateExitAmount
                                         (exitDemoMarket.OddsFor exitDemoBet.direction) }],
            markets := [{ exitDemoMarket with
                          poolUp := exitDemoMarket.poolUp + -exitDemoBet.amount }],
            bets := [{ exitDemoBet with
                       status := BetStatus.exited,
                       cashoutAmount := some (exitDemoBet.CalculateExitAmount
                                               (exitDemoMarket.OddsFor exitDemoBet.direction)),
                       cashoutFee := some (exitDemoBet.CalculateExitFee
                                            (exitDemoMarket.OddsFor exitDemoBet.direction)) }],
            mmPositions := [], treasury := [],
            txLog := [{ walletId := 10, type := TxType.cashout,
                        amount := exitDemoBet.CalculateExitAmount
                                    (exitDemoMarket.OddsFor exitDemoBet.direction),
                        balanceBefore := exitDemoWallet.balance,
                        balanceAfter := exitDemoWallet.balance +
                                          exitDemoBet.CalculateExitAmount
                                            (exitDemoMarket.OddsFor exitDemoBet.direction),
                        refBet := some 5 }],
            nextBetId := 6 } :=
  C6_early_exit.1 stdCfg exitDemoState [] [] exitDemoBet [] [] exitDemoWallet exitDemoMarket
    5 1 rfl (by simp) (by simp) rfl rfl rfl rfl rfl rfl rfl (by simp) (by simp) rfl
    (by norm_num [exitDemoBet, mkBet])
    (by norm_num [exitDemoMarket, exitDemoBet, mkBet, Market.OddsFor, Market.UpOdds,
      Market.effectivePool, Market.TotalPool, CommissionRate])

/-! ## Claim C2 — MM settlement at resolution -/

/-- Platform MM wallet row: user_id is NULL in the DB. -/
def mmDemoPlatformWallet : Wallet :=
  { id := 1, userId := none, walletType := some WalletType.platformMM, balance := 10000,
    locked := 0 }

/-- A user wallet for the MM-settlement scenario. -/
def mmDemoUserWallet : Wallet :=
  { id := 2, userId := some 7, walletType := none, balance := 500, locked := 0 }

/-- Expired market for the MM-settlement scenario: the UP pool holds the
platform's 100 TRY injection, the DOWN pool a 50 TRY user bet. -/
def mmDemoMarket : Market :=
  { id := 1, status := MarketStatus.open', openPrice := some 100, closePrice := none,
    result := none, poolUp := 100, poolDown := 50, closesAt := 100 }

/-- The platform's open MM position on UP. -/
def mmDemoPosition : MMLog :=
  { id := 0, marketId := 1, direction := Outcome.up, amount := 100, status := MMStatus.open',
    pnl := none, reason := some MMReason.seedUp, createdDay := 0 }

/-- The user's losing DOWN bet. -/
def mmDemoBet : Bet := mkBet 0 7 1 Outcome.down 50 1

/-- Ledger for the MM-settlement scenario. -/
def mmDemoState : SysState :=
  { wallets := [mmDemoPlatformWallet, mmDemoUserWallet], markets := [mmDemoMarket],
    bets := [mmDemoBet], mmPositions := [mmDemoPosition], treasury := [], txLog := [],
    nextBetId := 1 }

/-- C2 (failing input): resolving the market at close 120 (UP wins)
settles the winning MM position with the parimutuel payout 148.5 and
records pnl = 48.5 with status=won — but the platform wallet balance is
unchanged: the credit goes through WalletRepository.AddBalance keyed on
the NULL-scanned platform user id (the zero UUID), whose UPDATE matches
no wallet row.  The claim (and spec §4.5) requires the platform wallet to
be credited with the payout. -/
theorem C2_mm_payout_not_credited :
    resolveMarket true stdCfg mmDemoState mmDemoMarket 120 =
      .ok { wallets := [mmDemoPlatformWallet, mmDemoUserWallet],
            markets := [{ mmDemoMarket with
                          status := MarketStatus.resolved,
                          closePrice := some 120, result := some Outcome.up }],
            bets := [{ mmDemoBet with status := BetStatus.lost }],
            mmPositions := [{ mmDemoPosition with
                              status := MMStatus.won,
                              pnl := some (97 / 2) }],
            treasury := [(1, 9 / 2)], txLog := [], nextBetId := 1 } := by
  norm_num [resolveMarket, resolutionWinner, resolutionCommissionAmt, resolutionDistributable,
    BetRepo.getByMarketAndOutcome, payoutLoop, BetRepo.updateStatusBulk,
    WalletRepo.getPlatformWallet, settleMMLoop, calculatePayout, WalletRepo.addBalance,
    MarketRepo.resolve, Market.TotalPool, roundDown4, List.filter, List.find?, List.any,
    mmDemoState, mmDemoPlatformWallet, mmDemoUserWallet, mmDemoMarket, mmDemoPosition,
    mmDemoBet, mkBet, stdCfg]
  all_goals simp

/-! ## Claim C4 — transactional atomicity -/

/-- Winning user bet for the atomicity scenario. -/
def atomDemoBet : Bet := mkBet 0 7 1 Outcome.up 100 1

/-- Expired open market for the atomicity scenario. -/
def atomDemoMarket : Market :=
  { id := 1, status := MarketStatus.open', openPrice := some 100, closePrice := none,
    result := none, poolUp := 100, poolDown := 50, closesAt := 100 }

/-- Ledger for the resolveMarket half of the atomicity scenario. -/
def atomDemoState : SysState :=
  { wallets := [mmDemoPlatformWallet, mmDemoUserWallet], markets := [atomDemoMarket],
    bets := [atomDemoBet], mmPositions := [], treasury := [], txLog := [],
    nextBetId := 1 }

/-- Ledger for the placePlatformBet half of the atomicity scenario. -/
def pbDemoState : SysState :=
  { wallets := [mmDemoPlatformWallet], markets := [atomDemoMarket], bets := [],
    mmPositions := [], treasury := [], txLog := [], nextBetId := 0 }

/-- C4 (failing input): when the final `tx.Commit()` fails, writes remain
visible.  In resolveMarket, the market-row update runs through
`MarketRepository.Resolve` on the raw DB connection, so the market shows
status=resolved with close price and result while the winner's 148.5 TRY
payout, the bet status and the treasury row are all rolled back.  In
placePlatformBet, `BetRepository.CreatePlatformBet` likewise runs on the
raw DB connection, so the mm_positions row exists while the platform
wallet was never debited and the pool never increased.  The claim instead
requires that on any failure none of the writes are visible. -/
theorem C4_nontransactional_writes :
    resolveMarket false stdCfg atomDemoState atomDemoMarket 120 =
      .ok { wallets := [mmDemoPlatformWallet, mmDemoUserWallet],
            markets := [{ atomDemoMarket with
                          status := MarketStatus.resolved,
                          closePrice := some 120, result := some Outcome.up }],
            bets := [atomDemoBet], mmPositions := [], treasury := [], txLog := [],
            nextBetId := 1 } ∧
    placePlatformBet false stdCfg 0 pbDemoState 1 Outcome.down 100 MMReason.seedDown =
      .ok { wallets := [mmDemoPlatformWallet], markets := [atomDemoMarket], bets := [],
            mmPositions := [{ id := 0, marketId := 1, direction := Outcome.down,
                              amount := 100, status := MMStatus.open', pnl := none,
                              reason := some MMReason.seedDown, createdDay := 0 }],
            treasury := [], txLog := [], nextBetId := 0 } := by
  constructor
  · norm_num [resolveMarket, resolutionWinner, resolutionCommissionAmt,
      resolutionDistributable, BetRepo.getByMarketAndOutcome, payoutLoop,
      BetRepo.updateStatusBulk, WalletRepo.getPlatformWallet, settleMMLoop,
      calculatePayout, WalletRepo.addBalance, WalletRepo.getByUserID, BetRepo.updateStatus,
      MarketRepo.resolve, Market.TotalPool, roundDown4, List.filter, List.find?, List.any,
      atomDemoState, mmDemoPlatformWallet, mmDemoUserWallet, atomDemoMarket, atomDemoBet,
      mkBet, stdCfg]
    simp
  · norm_num [placePlatformBet, BetRepo.getPlatformDailyExposure,
      WalletRepo.getPlatformWallet, WalletRepo.getMarketMMExposure,
      WalletRepo.deductPlatformBalance, MarketRepo.updatePools, BetRepo.createPlatformBet,
      List.filter, List.find?, List.any, pbDemoState, mmDemoPlatformWallet, atomDemoMarket,
      stdCfg]

/-! ## Claim C8 — MM daily loss cap -/

theorem getPlatformWallet_error_cases {ws : List Wallet} {e : Err}
    (h : WalletRepo.getPlatformWallet ws = .error e) : e = Err.walletNotFound := by
  rw [WalletRepo.getPlatformWallet] at h
  split at h
  · exact absurd h (by simp)
  · injection h with h'
    exact h'.symm

theorem deductPlatformBalance_error_cases {ws : List Wallet} {a : ℚ} {e : Err}
    (h : WalletRepo.deductPlatformBalance ws a = .error e) :
    e = Err.walletNotFound ∨ e = Err.insufficientBalance := by
  rw [WalletRepo.deductPlatformBalance] at h
  split at h
  · injection h with h'
    exact Or.inl h'.symm
  · split at h
    · injection h with h'
      exact Or.inr h'.symm
    · exact absurd h (by simp)

/-- The daily-loss guard fires exactly when the stake passes the minimum
size and the sum of today's still-open MM positions plus the stake
exceeds MaxDailyLoss. -/
theorem placePlatformBet_daily_guard (commitOk : Bool) (cfg : Config) (today : Nat)
    (st : SysState) (mid : Nat) (o : Outcome) (a : ℚ) (reason : MMReason) :
    placePlatformBet commitOk cfg today st mid o a reason = .error Err.mmDailyLossExceeded ↔
      (¬ a < cfg.mm.minMMBet ∧
       cfg.mm.maxDailyLoss < BetRepo.getPlatformDailyExposure st.mmPositions today + a) := by
  rw [placePlatformBet]
  by_cases h1 : a < cfg.mm.minMMBet
  · rw [if_pos h1]
    simp [h1]
  · rw [if_neg h1]
    by_cases h2 : cfg.mm.maxDailyLoss <
        BetRepo.getPlatformDailyExposure st.mmPositions today + a
    · rw [if_pos h2]
      simp [h1, h2]
    · rw [if_neg h2]
      constructor
      · intro h
        exfalso
        cases hp : WalletRepo.getPlatformWallet st.wallets with
        | error e =>
          simp only [hp] at h
          injection h with h'
          rw [h'] at hp
          exact absurd (getPlatformWallet_error_cases hp) (by simp)
        | ok pw =>
          simp only [hp] at h
          by_cases h3 : pw.balance < cfg.mm.minReserve + a
          · rw [if_pos h3] at h
            exact absurd h (by simp)
          · rw [if_neg h3] at h
            by_cases h4 : cfg.mm.maxExposurePerMarket <
                WalletRepo.getMarketMMExposure st.mmPositions mid + a
            · rw [if_pos h4] at h
              exact absurd h (by simp)
            · rw [if_neg h4] at h
              cases hd : WalletRepo.deductPlatformBalance st.wallets a with
              | error e =>
                simp only [hd] at h
                injection h with h'
                rw [h'] at hd
                rcases deductPlatformBalance_error_cases hd with he | he <;>
                  exact absurd he (by simp)
              | ok ws =>
                simp only [hd] at h
                cases hu : MarketRepo.updatePools st.markets mid o a with
                | error e =>
                  simp only [hu] at h
                  injection h with h'
                  rw [h'] at hu
                  exact absurd (updatePools_error_cases hu) (by simp)
                | ok ms =>
                  simp only [hu] at h
                  cases commitOk <;> exact absurd h (by simp)
      · intro h
        exact absurd h.2 h2

theorem dailyExposure_cons (p : MMLog) (ps : List MMLog) (today : Nat) :
    BetRepo.getPlatformDailyExposure (p :: ps) today =
      (if p.status = MMStatus.open' ∧ p.createdDay = today then p.amount else 0) +
        BetRepo.getPlatformDailyExposure ps today := by
  by_cases hc : p.status = MMStatus.open' ∧ p.createdDay = today
  · simp [BetRepo.getPlatformDailyExposure, List.filter_cons, hc]
  · simp [BetRepo.getPlatformDailyExposure, List.filter_cons, hc]

theorem dailyExposure_append (ps qs : List MMLog) (today : Nat) :
    BetRepo.getPlatformDailyExposure (ps ++ qs) today =
      BetRepo.getPlatformDailyExposure ps today +
        BetRepo.getPlatformDailyExposure qs today := by
  simp [BetRepo.getPlatformDailyExposure, List.filter_append]

/-- Settling MM positions never increases, and keeps non-negative, the
open-today exposure: each settled position leaves the open status. -/
theorem settleMMLoop_exposure_le (mid uid : Nat) (win : Outcome) (wn dist : ℚ)
    (today : Nat) :
    ∀ (ps : List MMLog) (ws : List Wallet) (ps' : List MMLog) (ws' : List Wallet),
      settleMMLoop mid uid win wn dist ps ws = .ok (ps', ws') →
      (∀ p ∈ ps, 0 ≤ p.amount) →
      BetRepo.getPlatformDailyExposure ps' today ≤
        BetRepo.getPlatformDailyExposure ps today ∧
      ∀ p ∈ ps', 0 ≤ p.amount := by
  intro ps
  induction ps with
  | nil =>
    intro ws ps' ws' h hnn
    rw [settleMMLoop] at h
    simp only [Except.ok.injEq, Prod.mk.injEq] at h
    obtain ⟨h1, -⟩ := h
    subst h1
    exact ⟨le_refl _, by simp⟩
  | cons pos rest ih =>
    intro ws ps' ws' h hnn
    have hpos : 0 ≤ pos.amount := hnn pos (by simp)
    have hrest : ∀ p ∈ rest, 0 ≤ p.amount := fun p hp => hnn p (by simp [hp])
    have hhead : 0 ≤ (if pos.status = MMStatus.open' ∧ pos.createdDay = today
        then pos.amount else 0) := by
      split
      · exact hpos
      · exact le_refl 0
    rw [settleMMLoop] at h
    split at h
    · split at h
      · split at h
        · exact absurd h (by simp)
        · split at h
          · exact absurd h (by simp)
          · rename_i rs wsFin hr
            simp only [Except.ok.injEq, Prod.mk.injEq] at h
            obtain ⟨h1, -⟩ := h
            subst h1
            obtain ⟨ihe, ihn⟩ := ih _ rs wsFin hr hrest
            refine ⟨?_, ?_⟩
            · rw [dailyExposure_cons, dailyExposure_cons]
              simp
              linarith [ihe, hhead]
            · intro p hp
              rcases List.mem_cons.1 hp with h | h
              · subst h
                exact hpos
              · exact ihn p h
      · split at h
        · exact absurd h (by simp)
        · rename_i rs wsFin hr
          simp only [Except.ok.injEq, Prod.mk.injEq] at h
          obtain ⟨h1, -⟩ := h
          subst h1
          obtain ⟨ihe, ihn⟩ := ih ws rs wsFin hr hrest
          refine ⟨?_, ?_⟩
          · rw [dailyExposure_cons, dailyExposure_cons]
            simp
            linarith [ihe, hhead]
          · intro p hp
            rcases List.mem_cons.1 hp with h | h
            · subst h
              exact hpos
            · exact ihn p h
    · split at h
      · exact absurd h (by simp)
      · rename_i rs wsFin hr
        simp only [Except.ok.injEq, Prod.mk.injEq] at h
        obtain ⟨h1, -⟩ := h
        subst h1
        obtain ⟨ihe, ihn⟩ := ih ws rs wsFin hr hrest
        refine ⟨?_, ?_⟩
        · rw [dailyExposure_cons, dailyExposure_cons]
          linarith
        · intro p hp
          rcases List.mem_cons.1 hp with h | h
          · subst h
            exact hpos
          · exact ihn p h

/-- A successful guarded injection either leaves mm_positions unchanged
(silent no-op guards) or — having passed the daily-loss guard — appends
the new open position. -/
theorem placePlatformBet_ok_mmPositions (cfg : Config) (today : Nat) (st : SysState)
    (mid : Nat) (o : Outcome) (a : ℚ) (reason : MMReason) (s : SysState)
    (h : placePlatformBet true cfg today st mid o a reason = .ok s) :
    s.mmPositions = st.mmPositions ∨
      (¬ a < cfg.mm.minMMBet ∧
       ¬ cfg.mm.maxDailyLoss < BetRepo.getPlatformDailyExposure st.mmPositions today + a ∧
       s.mmPositions = BetRepo.createPlatformBet st.mmPositions mid o a reason today) := by
  rw [placePlatformBet] at h
  split at h
  · injection h with h'
    subst h'
    exact Or.inl rfl
  · rename_i h1
    by_cases h2 : cfg.mm.maxDailyLoss <
        BetRepo.getPlatformDailyExposure st.mmPositions today + a
    · rw [if_pos h2] at h
      exact absurd h (by simp)
    · rw [if_neg h2] at h
      cases hp : WalletRepo.getPlatformWallet st.wallets with
      | error e =>
        simp only [hp] at h
        exact absurd h (by simp)
      | ok pw =>
        simp only [hp] at h
        split at h
        · exact absurd h (by simp)
        · split at h
          · injection h with h'
            subst h'
            exact Or.inl rfl
          · cases hd : WalletRepo.deductPlatformBalance st.wallets a with
            | error e =>
              simp only [hd] at h
              exact absurd h (by simp)
            | ok ws2 =>
              simp only [hd] at h
              cases hu : MarketRepo.updatePools st.markets mid o a with
              | error e =>
                simp only [hu] at h
                exact absurd h (by simp)
              | ok ms =>
                simp only [hu, if_true] at h
                injection h with h'
                subst h'
                exact Or.inr ⟨h1, h2, rfl⟩

/-- A successful resolution rewrites mm_positions exactly as the MM
settlement loop does. -/
theorem resolveMarket_ok_mmPositions (cfg : Config) (st : SysState) (m : Market) (cp : ℚ)
    (s : SysState) (h : resolveMarket true cfg st m cp = .ok s) :
    ∃ (uid : Nat) (wn dist : ℚ) (ws : List Wallet) (ps : List MMLog) (ws' : List Wallet),
      settleMMLoop m.id uid (resolutionWinner m.openPrice cp) wn dist st.mmPositions ws =
        .ok (ps, ws') ∧ s.mmPositions = ps := by
  rw [resolveMarket] at h
  split at h
  · exact absurd h (by simp)
  · rename_i ws bs tl hp
    split at h
    all_goals (
      split at h
      · exact absurd h (by simp)
      · rename_i pw hpw
        split at h
        · exact absurd h (by simp)
        · rename_i ps wsFin hsettle
          split at h
          · exact absurd h (by simp)
          · rename_i ms hres
            simp only [if_true] at h
            injection h with h'
            subst h'
            exact ⟨pw.userId.getD 0, _, _, ws, ps, wsFin, hsettle, rfl⟩)

/-- One MM-scenario step preserves non-negative position amounts and the
open-today exposure bound. -/
theorem mmApply_daily_invariant (cfg : Config) (today : Nat) (st : SysState) (op : MMOp)
    (hmin : 0 ≤ cfg.mm.minMMBet)
    (hnn : ∀ p ∈ st.mmPositions, 0 ≤ p.amount)
    (hle : BetRepo.getPlatformDailyExposure st.mmPositions today ≤ cfg.mm.maxDailyLoss) :
    (∀ p ∈ (mmApply cfg today st op).mmPositions, 0 ≤ p.amount) ∧
    BetRepo.getPlatformDailyExposure (mmApply cfg today st op).mmPositions today ≤
      cfg.mm.maxDailyLoss := by
  cases op with
  | inject mid o a reason =>
    rw [mmApply]
    cases hp : placePlatformBet true cfg today st mid o a reason with
    | error e => exact ⟨hnn, hle⟩
    | ok s =>
      simp only []
      rcases placePlatformBet_ok_mmPositions cfg today st mid o a reason s hp with
        hsame | ⟨h1, h2, h3⟩
      · rw [hsame]
        exact ⟨hnn, hle⟩
      · rw [h3, BetRepo.createPlatformBet]
        constructor
        · intro p hp'
          rcases List.mem_append.1 hp' with hmem | hmem
          · exact hnn p hmem
          · simp only [List.mem_singleton] at hmem
            subst hmem
            exact le_trans hmin (not_lt.1 h1)
        · rw [dailyExposure_append, dailyExposure_cons]
          have hg := not_lt.1 h2
          have hnil : BetRepo.getPlatformDailyExposure [] today = 0 := by
            simp [BetRepo.getPlatformDailyExposure]
          simp only [hnil]
          simp
          linarith
  | resolveStep mid cp =>
    rw [mmApply]
    cases hm : MarketRepo.getByID st.markets mid with
    | error e => exact ⟨hnn, hle⟩
    | ok m =>
      simp only []
      cases hr : resolveMarket true cfg st m cp with
      | error e => exact ⟨hnn, hle⟩
      | ok s =>
        simp only []
        obtain ⟨uid, wn, dist, ws, ps, ws', hsettle, hps⟩ :=
          resolveMarket_ok_mmPositions cfg st m cp s hr
        obtain ⟨he, hn⟩ := settleMMLoop_exposure_le m.id uid
          (resolutionWinner m.openPrice cp) wn dist today st.mmPositions ws ps ws'
          hsettle hnn
        rw [hps]
        exact ⟨hn, le_trans he hle⟩

/-- C8 (amended): the daily-loss guard compares the injection amount with
the sum of today's still-open MM positions, not with the cumulative
amount injected today.  An injection fails MMDailyLossExceeded exactly
when it passes the minimum-size guard and would push that open-today sum
above MaxDailyLoss, and consequently, along any sequence of injections
and resolutions, the open-today exposure never exceeds MaxDailyLoss —
while the cumulative amount injected during the day may exceed it once
earlier positions have been settled by a resolution. -/
theorem C8_daily_loss_guard_amended :
    (∀ (cfg : Config) (today : Nat) (st : SysState) (mid : Nat) (o : Outcome) (a : ℚ)
       (reason : MMReason),
      placePlatformBet true cfg today st mid o a reason = .error Err.mmDailyLossExceeded ↔
        (¬ a < cfg.mm.minMMBet ∧
         cfg.mm.maxDailyLoss <
           BetRepo.getPlatformDailyExposure st.mmPositions today + a)) ∧
    (∀ (cfg : Config) (today : Nat) (ops : List MMOp) (st0 : SysState),
      0 ≤ cfg.mm.minMMBet →
      (∀ p ∈ st0.mmPositions, 0 ≤ p.amount) →
      BetRepo.getPlatformDailyExposure st0.mmPositions today ≤ cfg.mm.maxDailyLoss →
      BetRepo.getPlatformDailyExposure (mmApplyAll cfg today ops st0).mmPositions today ≤
        cfg.mm.maxDailyLoss) := by
  constructor
  · intro cfg today st mid o a reason
    exact placePlatformBet_daily_guard true cfg today st mid o a reason
  · intro cfg today ops
    induction ops with
    | nil =>
      intro st0 _ _ hle
      rw [mmApplyAll]
      exact hle
    | cons op rest ih =>
      intro st0 hmin hnn hle
      rw [mmApplyAll]
      obtain ⟨hn', hle'⟩ := mmApply_daily_invariant cfg today st0 op hmin hnn hle
      exact ih (mmApply cfg today st0 op) hmin hn' hle'

/-- Configuration for the daily-loss counterexample: MaxDailyLoss = 100. -/
def c8Cfg : Config :=
  { mm := { maxExposurePerMarket := 1000, maxDailyLoss := 100, minReserve := 0,
            triggerThreshold := 4 / 5, minMMBet := 10 },
    wallet := { commissionRate := 3 / 100, cashoutFeeRate := 5 / 100 } }

/-- First open market of the counterexample day. -/
def c8M1 : Market :=
  { id := 1, status := MarketStatus.open', openPrice := some 100, closePrice := none,
    result := none, poolUp := 0, poolDown := 0, closesAt := 100 }

/-- Second open market of the counterexample day. -/
def c8M2 : Market :=
  { id := 2, status := MarketStatus.open', openPrice := some 100, closePrice := none,
    result := none, poolUp := 0, poolDown := 0, closesAt := 200 }

/-- Ledger at the start of the counterexample day. -/
def c8Start : SysState :=
  { wallets := [mmDemoPlatformWallet], markets := [c8M1, c8M2], bets := [],
    mmPositions := [], treasury := [], txLog := [], nextBetId := 0 }

/-- Inject 100 into market 1 (exactly the cap), resolve market 1 (its
position leaves the open status), then inject 100 into market 2. -/
def c8Ops : List MMOp :=
  [MMOp.inject 1 Outcome.up 100 MMReason.seedUp, MMOp.resolveStep 1 120,
   MMOp.inject 2 Outcome.up 100 MMReason.seedUp]

/-- C8 (counterexample): with MaxDailyLoss = 100, the platform injects
100 TRY, the market resolves, and a further 100 TRY injection succeeds the
same day because the daily guard only counts still-open positions: the
cumulative amount injected that day reaches 200 > MaxDailyLoss, refuting
the claim as stated. -/
theorem C8_counterexample :
    dailyInjectedTotal (mmApplyAll c8Cfg 0 c8Ops c8Start) 0 = 200 ∧
    c8Cfg.mm.maxDailyLoss < dailyInjectedTotal (mmApplyAll c8Cfg 0 c8Ops c8Start) 0 := by
  have hrun : dailyInjectedTotal (mmApplyAll c8Cfg 0 c8Ops c8Start) 0 = 200 := by
    norm_num [mmApplyAll, mmApply, c8Ops, c8Start, c8Cfg, c8M1, c8M2,
      mmDemoPlatformWallet, placePlatformBet, BetRepo.getPlatformDailyExposure,
      WalletRepo.getPlatformWallet, WalletRepo.getMarketMMExposure,
      WalletRepo.deductPlatformBalance, MarketRepo.updatePools, BetRepo.createPlatformBet,
      MarketRepo.getByID, resolveMarket, resolutionWinner, resolutionCommissionAmt,
      resolutionDistributable, BetRepo.getByMarketAndOutcome, payoutLoop,
      BetRepo.updateStatusBulk, settleMMLoop, calculatePayout, WalletRepo.addBalance,
      MarketRepo.resolve, Market.TotalPool, roundDown4, dailyInjectedTotal,
      List.filter, List.find?, List.any]
  refine ⟨hrun, ?_⟩
  rw [hrun]
  norm_num [c8Cfg]

/-- Witness for C8's amended invariant at the counterexample trace: the
open-today exposure stays within the cap even though the injected total
reaches 200. -/
theorem C8_daily_loss_guard_amended_witness :
    BetRepo.getPlatformDailyExposure (mmApplyAll c8Cfg 0 c8Ops c8Start).mmPositions 0 ≤
      c8Cfg.mm.maxDailyLoss :=
  C8_daily_loss_guard_amended.2 c8Cfg 0 c8Ops c8Start (by norm_num [c8Cfg])
    (by simp [c8Start]) (by norm_num [c8Start, c8Cfg, BetRepo.getPlatformDailyExposure])

/-! ## Claim C1 — conservation: wallet bookkeeping lemmas -/

/-- Identity-relevant wallet columns (user id and wallet type); the
embedded wallet mutations change balances only. -/
def wKey (w : Wallet) : Option Nat × Option WalletType := (w.userId, w.walletType)

/-- Sum of the stakes of the bets in a given direction. -/
def sumDir (d : Outcome) (bets : List Bet) : ℚ :=
  ((bets.filter (fun b => b.direction = d)).map Bet.amount).sum

theorem map_key_of_preserve (f : Wallet → Wallet) (hf : ∀ v, wKey (f v) = wKey v) :
    ∀ l : List Wallet, (l.map f).map wKey = l.map wKey
  | [] => rfl
  | w :: l => by
    rw [List.map_cons, List.map_cons, List.map_cons, hf, map_key_of_preserve f hf l]

theorem wkeys_platform_iff_transfer {l l' : List Wallet}
    (hk : l.map wKey = l'.map wKey)
    (h : ∀ w ∈ l', (w.walletType = some WalletType.platformMM ↔ w.userId = none)) :
    ∀ w ∈ l, (w.walletType = some WalletType.platformMM ↔ w.userId = none) := by
  intro w hw
  have hmem : wKey w ∈ l.map wKey := List.mem_map_of_mem _ hw
  rw [hk] at hmem
  obtain ⟨w', hw', hkey⟩ := List.mem_map.1 hmem
  have h1 : w'.userId = w.userId := congr_arg Prod.fst hkey
  have h2 : w'.walletType = w.walletType := congr_arg Prod.snd hkey
  rw [← h1, ← h2]
  exact h w' hw'

theorem wkeys_exists_transfer {l l' : List Wallet} (hk : l.map wKey = l'.map wKey)
    {uid : Nat} (h : ∃ w ∈ l', w.userId = some uid) : ∃ w ∈ l, w.userId = some uid := by
  obtain ⟨w', hw', hu⟩ := h
  have hmem : wKey w' ∈ l'.map wKey := List.mem_map_of_mem _ hw'
  rw [← hk] at hmem
  obtain ⟨w, hw, hkey⟩ := List.mem_map.1 hmem
  refine ⟨w, hw, ?_⟩
  rw [show w.userId = w'.userId from congr_arg Prod.fst hkey, hu]

theorem filterMap_userId_eq :
    ∀ l : List Wallet, l.filterMap Wallet.userId = (l.map wKey).filterMap Prod.fst
  | [] => rfl
  | w :: l => by
    cases hw : w.userId with
    | none =>
      rw [List.map_cons, List.filterMap_cons_none hw,
        List.filterMap_cons_none (show Prod.fst (wKey w) = none by simp [wKey, hw]),
        filterMap_userId_eq l]
    | some u =>
      rw [List.map_cons, List.filterMap_cons_some hw,
        List.filterMap_cons_some (show Prod.fst (wKey w) = some u by simp [wKey, hw]),
        filterMap_userId_eq l]

theorem wkeys_nodup_transfer {l l' : List Wallet} (hk : l.map wKey = l'.map wKey)
    (h : (l'.filterMap Wallet.userId).Nodup) : (l.filterMap Wallet.userId).Nodup := by
  rw [filterMap_userId_eq, hk, ← filterMap_userId_eq]
  exact h

/-- Number of wallet rows carrying a given user id. -/
def matchCount (l : List Wallet) (uid : Nat) : Nat :=
  (l.filter (fun v => v.userId = some uid)).length

theorem matchCount_le_one (uid : Nat) :
    ∀ l : List Wallet, (l.filterMap Wallet.userId).Nodup → matchCount l uid ≤ 1 := by
  intro l
  induction l with
  | nil => intro _; simp [matchCount]
  | cons w l ih =>
    intro h
    cases hw : w.userId with
    | none =>
      rw [List.filterMap_cons_none hw] at h
      have hm : matchCount (w :: l) uid = matchCount l uid := by
        simp [matchCount, List.filter_cons, hw]
      rw [hm]
      exact ih h
    | some u =>
      rw [List.filterMap_cons_some hw] at h
      obtain ⟨hnotin, hnd⟩ := List.nodup_cons.1 h
      by_cases hu : u = uid
      · subst hu
        have hftail : l.filter (fun v => v.userId = some u) = [] := by
          rw [List.filter_eq_nil_iff]
          intro v hv hveq
          simp only [decide_eq_true_eq] at hveq
          exact hnotin (List.mem_filterMap.2 ⟨v, hv, hveq⟩)
        simp [matchCount, List.filter_cons, hw, hftail]
      · have hm : matchCount (w :: l) uid = matchCount l uid := by
          simp [matchCount, List.filter_cons, hw, hu]
        rw [hm]
        exact ih hnd

theorem matchCount_pos {l : List Wallet} {uid : Nat} {w : Wallet}
    (h : l.find? (fun v => v.userId = some uid) = some w) : 1 ≤ matchCount l uid := by
  have hmem := List.mem_of_find?_eq_some h
  have hp := List.find?_some h
  have hmf : w ∈ l.filter (fun v => v.userId = some uid) := List.mem_filter.2 ⟨hmem, hp⟩
  have hne := List.ne_nil_of_mem hmf
  have hpos := List.length_pos.2 hne
  rw [matchCount]
  omega

theorem matchCount_eq_one {l : List Wallet} {uid : Nat} {w : Wallet}
    (hnd : (l.filterMap Wallet.userId).Nodup)
    (h : l.find? (fun v => v.userId = some uid) = some w) : matchCount l uid = 1 :=
  le_antisymm (matchCount_le_one uid l hnd) (matchCount_pos h)

theorem userSumW_map_add (uid : Nat) (d : ℚ) :
    ∀ l : List Wallet,
      (∀ w ∈ l, (w.walletType = some WalletType.platformMM ↔ w.userId = none)) →
      userSumW (l.map (fun v =>
        if v.userId = some uid then { v with balance := v.balance + d } else v)) =
        userSumW l + (matchCount l uid : ℚ) * d := by
  intro l
  induction l with
  | nil => intro _; simp [userSumW, matchCount]
  | cons w l ih =>
    intro h
    have hw := h w (by simp)
    have htail := ih (fun v hv => h v (by simp [hv]))
    by_cases hm : w.userId = some uid
    · have hnp : ¬ w.walletType = some WalletType.platformMM := by
        intro hp
        rw [hw.1 hp] at hm
        exact absurd hm (by simp)
      simp only [List.map_cons, if_pos hm]
      simp [userSumW, matchCount, List.filter_cons, hm, hnp] at htail ⊢
      rw [htail]
      ring
    · simp only [List.map_cons, if_neg hm]
      by_cases hp : w.walletType = some WalletType.platformMM
      · simp [userSumW, matchCount, List.filter_cons, hm, hp] at htail ⊢
        rw [htail]
      · simp [userSumW, matchCount, List.filter_cons, hm, hp] at htail ⊢
        rw [htail]
        ring

theorem platSumW_map_add (uid : Nat) (d : ℚ) :
    ∀ l : List Wallet,
      (∀ w ∈ l, (w.walletType = some WalletType.platformMM ↔ w.userId = none)) →
      platSumW (l.map (fun v =>
        if v.userId = some uid then { v with balance := v.balance + d } else v)) =
        platSumW l := by
  intro l
  induction l with
  | nil => intro _; simp [platSumW]
  | cons w l ih =>
    intro h
    have hw := h w (by simp)
    have htail := ih (fun v hv => h v (by simp [hv]))
    by_cases hm : w.userId = some uid
    · have hnp : ¬ w.walletType = some WalletType.platformMM := by
        intro hp
        rw [hw.1 hp] at hm
        exact absurd hm (by simp)
      simp only [List.map_cons, if_pos hm]
      simp [platSumW, List.filter_cons, hnp] at htail ⊢
      exact htail
    · simp only [List.map_cons, if_neg hm]
      by_cases hp : w.walletType = some WalletType.platformMM
      · simp [platSumW, List.filter_cons, hp] at htail ⊢
        rw [htail]
      · simp [platSumW, List.filter_cons, hp] at htail ⊢
        exact htail

theorem map_balance_sub_eq (uid : Nat) (a : ℚ) :
    ∀ l : List Wallet,
      l.map (fun v => if v.userId = some uid then { v with balance := v.balance - a }
                      else v) =
        l.map (fun v => if v.userId = some uid then { v with balance := v.balance + -a }
                        else v)
  | [] => rfl
  | w :: l => by
    rw [List.map_cons, List.map_cons, map_balance_sub_eq uid a l]
    congr 1
    split
    · simp [sub_eq_add_neg]
    · rfl

theorem sumDir_append (dd : Outcome) (bets : List Bet) (b : Bet) :
    sumDir dd (bets ++ [b]) =
      sumDir dd bets + (if b.direction = dd then b.amount else 0) := by
  by_cases hb : b.direction = dd
  · simp [sumDir, List.filter_append, List.filter_cons, hb]
  · simp [sumDir, List.filter_append, List.filter_cons, hb]

/-- Success-shape of PlaceBet: the checks that passed and the exact
committed state. -/
theorem placeBet_ok_shape (cfg : Config) (st : SysState) (uid mid : Nat) (dir : Outcome)
    (a : ℚ) (s : SysState) (h : placeBet cfg st uid mid dir a = .ok s) :
    ¬ a < 10 ∧
    ∃ ws market ms w,
      WalletRepo.deductBalance st.wallets uid a = .ok ws ∧
      MarketRepo.getByID st.markets mid = .ok market ∧
      market.IsOpen = true ∧
      MarketRepo.updatePools st.markets mid dir a = .ok ms ∧
      WalletRepo.getByUserID st.wallets uid = .ok w ∧
      s = { wallets := ws, markets := ms,
            bets := st.bets ++ [{ id := st.nextBetId, userId := uid, marketId := mid,
                                  direction := dir, amount := a,
                                  oddsAtEntry := if market.OddsFor dir = 0 then 1
                                                 else market.OddsFor dir,
                                  status := BetStatus.active, payout := none,
                                  cashoutAmount := none, cashoutFee := none }],
            mmPositions := st.mmPositions, treasury := st.treasury,
            txLog := st.txLog ++ [{ walletId := w.id, type := TxType.betLock,
                                    amount := a, balanceBefore := w.balance,
                                    balanceAfter := w.balance - a,
                                    refBet := some st.nextBetId }],
            nextBetId := st.nextBetId + 1 } := by
  rw [placeBet] at h
  split at h
  · exact absurd h (by simp)
  · rename_i h10
    refine ⟨h10, ?_⟩
    split at h
    · exact absurd h (by simp)
    · rename_i ws hd
      split at h
      · exact absurd h (by simp)
      · rename_i market hm
        split at h
        · rename_i hopen
          split at h
          · exact absurd h (by simp)
          · rename_i ms hu
            split at h
            · exact absurd h (by simp)
            · rename_i w hw
              injection h with h'
              exact ⟨ws, market, ms, w, hd, hm, hopen, hu, hw, h'.symm⟩
        · exact absurd h (by simp)

/-- Clean-start conditions for the conservation analysis: one open market
with empty pools, no bets, positions or treasury rows, DB-unique wallet
user ids, and the platform wallet identified by its NULL user id. -/
structure CleanStart (st0 : SysState) (m0 : Market) : Prop where
  markets : st0.markets = [m0]
  mstatus : m0.status = MarketStatus.open'
  poolUp0 : m0.poolUp = 0
  poolDown0 : m0.poolDown = 0
  bets0 : st0.bets = []
  mm0 : st0.mmPositions = []
  treas0 : st0.treasury = []
  plat_iff : ∀ w ∈ st0.wallets,
    (w.walletType = some WalletType.platformMM ↔ w.userId = none)
  uids_nodup : (st0.wallets.filterMap Wallet.userId).Nodup

/-- Invariant maintained by bet placements on a clean single-market
ledger: the pools mirror the open bets' stakes, wallet identity columns
are untouched, and the wallet sums track the pools. -/
structure C1Inv (st0 : SysState) (m0 : Market) (st : SysState) : Prop where
  market_shape : ∃ mP, st.markets = [mP] ∧ mP.id = m0.id ∧
    mP.status = MarketStatus.open' ∧ mP.openPrice = m0.openPrice ∧
    mP.poolUp = sumDir Outcome.up st.bets ∧ mP.poolDown = sumDir Outcome.down st.bets
  bets_ok : ∀ b ∈ st.bets, b.status = BetStatus.active ∧ b.marketId = m0.id ∧
    10 ≤ b.amount ∧ ∃ w ∈ st.wallets, w.userId = some b.userId
  wallets_keys : st.wallets.map wKey = st0.wallets.map wKey
  user_sum : userSumW st.wallets =
    userSumW st0.wallets - (sumDir Outcome.up st.bets + sumDir Outcome.down st.bets)
  plat_sum : platSumW st.wallets = platSumW st0.wallets
  mm_nil : st.mmPositions = []
  treas_nil : st.treasury = []

/-- A successful placement preserves the conservation invariant. -/
theorem placeBet_inv {cfg : Config} {st0 : SysState} {m0 : Market} {st s : SysState}
    {uid : Nat} {dir : Outcome} {a : ℚ}
    (hcs : CleanStart st0 m0) (hinv : C1Inv st0 m0 st)
    (h : placeBet cfg st uid m0.id dir a = .ok s) : C1Inv st0 m0 s := by
  obtain ⟨h10, ws, market, ms, w, hd, hm, hopen, hu, hw, hs⟩ :=
    placeBet_ok_shape cfg st uid m0.id dir a s h
  obtain ⟨mP, hms, hid, hstat, hopenp, hpu, hpd⟩ := hinv.market_shape
  have hplat_st : ∀ v ∈ st.wallets,
      (v.walletType = some WalletType.platformMM ↔ v.userId = none) :=
    wkeys_platform_iff_transfer hinv.wallets_keys hcs.plat_iff
  have hnd_st : (st.wallets.filterMap Wallet.userId).Nodup :=
    wkeys_nodup_transfer hinv.wallets_keys hcs.uids_nodup
  have hd_shape : ∃ wfound,
      st.wallets.find? (fun v => v.userId = some uid) = some wfound ∧
      ws = st.wallets.map (fun v =>
        if v.userId = some uid then { v with balance := v.balance - a } else v) := by
    rw [WalletRepo.deductBalance] at hd
    split at hd
    · exact absurd hd (by simp)
    · rename_i wf hf
      split at hd
      · exact absurd hd (by simp)
      · injection hd with hd2
        exact ⟨wf, hf, hd2.symm⟩
  obtain ⟨wf, hf, hws⟩ := hd_shape
  have hcnt := matchCount_eq_one hnd_st hf
  have huser : userSumW ws = userSumW st.wallets - a := by
    rw [hws, map_balance_sub_eq, userSumW_map_add uid (-a) st.wallets hplat_st, hcnt]
    ring
  have hplat2 : platSumW ws = platSumW st.wallets := by
    rw [hws, map_balance_sub_eq, platSumW_map_add uid (-a) st.wallets hplat_st]
  have hkeys : ws.map wKey = st.wallets.map wKey := by
    rw [hws, map_balance_sub_eq]
    exact map_key_of_preserve _ (fun v => by split <;> rfl) st.wallets
  have hwf_mem : ∃ v ∈ st.wallets, v.userId = some uid :=
    ⟨wf, List.mem_of_find?_eq_some hf, by simpa using List.find?_some hf⟩
  have hbets_ok : ∀ b ∈ st.bets, b.status = BetStatus.active ∧ b.marketId = m0.id ∧
      10 ≤ b.amount ∧ ∃ v ∈ ws, v.userId = some b.userId := by
    intro b hb
    obtain ⟨h1, h2, h3, h4⟩ := hinv.bets_ok b hb
    exact ⟨h1, h2, h3, wkeys_exists_transfer hkeys h4⟩
  rw [MarketRepo.updatePools, hms] at hu
  rw [if_pos (by simp [List.any_cons, hid, hstat])] at hu
  subst hs
  cases dir with
  | up =>
    have hms_val : ms = [{ mP with poolUp := mP.poolUp + a }] := by
      simp only [List.map_cons, List.map_nil, if_pos hid] at hu
      injection hu with hu2
      exact hu2.symm
    refine ⟨⟨{ mP with poolUp := mP.poolUp + a }, by simp [hms_val], by simpa using hid,
      by simpa using hstat, by simpa using hopenp, ?_, ?_⟩, ?_, hkeys.trans hinv.wallets_keys,
      ?_, by simpa using hplat2.trans hinv.plat_sum, by simpa using hinv.mm_nil,
      by simpa using hinv.treas_nil⟩
    · simp [sumDir_append, hpu]
    · simp [sumDir_append, hpd]
    · intro b hb
      simp only [SysState.bets] at hb
      rcases List.mem_append.1 hb with hb | hb
      · exact hbets_ok b hb
      · simp only [List.mem_singleton] at hb
        subst hb
        exact ⟨rfl, rfl, not_lt.1 h10, wkeys_exists_transfer hkeys hwf_mem⟩
    · simp only [SysState.wallets, SysState.bets]
      rw [huser, hinv.user_sum]
      simp [sumDir_append]
      ring
  | down =>
    have hms_val : ms = [{ mP with poolDown := mP.poolDown + a }] := by
      simp only [List.map_cons, List.map_nil, if_pos hid] at hu
      injection hu with hu2
      exact hu2.symm
    refine ⟨⟨{ mP with poolDown := mP.poolDown + a }, by simp [hms_val], by simpa using hid,
      by simpa using hstat, by simpa using hopenp, ?_, ?_⟩, ?_, hkeys.trans hinv.wallets_keys,
      ?_, by simpa using hplat2.trans hinv.plat_sum, by simpa using hinv.mm_nil,
      by simpa using hinv.treas_nil⟩
    · simp [sumDir_append, hpu]
    · simp [sumDir_append, hpd]
    · intro b hb
      simp only [SysState.bets] at hb
      rcases List.mem_append.1 hb with hb | hb
      · exact hbets_ok b hb
      · simp only [List.mem_singleton] at hb
        subst hb
        exact ⟨rfl, rfl, not_lt.1 h10, wkeys_exists_transfer hkeys hwf_mem⟩
    · simp only [SysState.wallets, SysState.bets]
      rw [huser, hinv.user_sum]
      simp [sumDir_append]
      ring

/-- The conservation invariant holds after any sequence of placements on
a clean start. -/
theorem applyPlaces_inv {cfg : Config} {st0 : SysState} {m0 : Market}
    (hcs : CleanStart st0 m0) :
    ∀ (reqs : List PlaceReq) (st : SysState), C1Inv st0 m0 st →
      C1Inv st0 m0 (applyPlaces cfg m0.id reqs st)
  | [], st, hinv => by
    rw [applyPlaces]
    exact hinv
  | r :: rest, st, hinv => by
    rw [applyPlaces]
    apply applyPlaces_inv hcs rest
    cases hp : placeBet cfg st r.userId m0.id r.direction r.amount with
    | error e =>
      simp only [hp]
      exact hinv
    | ok s =>
      simp only [hp]
      exact placeBet_inv hcs hinv hp

/-- The clean start itself satisfies the invariant. -/
theorem cleanStart_inv {st0 : SysState} {m0 : Market} (hcs : CleanStart st0 m0) :
    C1Inv st0 m0 st0 := by
  refine ⟨⟨m0, hcs.markets, rfl, hcs.mstatus, rfl, ?_, ?_⟩, ?_, rfl, ?_, rfl,
    hcs.mm0, hcs.treas0⟩
  · rw [hcs.bets0, hcs.poolUp0]
    simp [sumDir]
  · rw [hcs.bets0, hcs.poolDown0]
    simp [sumDir]
  · rw [hcs.bets0]
    simp
  · rw [hcs.bets0]
    simp [sumDir]

/-- Sum of the stakes of a bet list. -/
def stakeSum (bets : List Bet) : ℚ := (bets.map Bet.amount).sum

/-- Sum of the parimutuel payouts the resolution loop credits for a list
of winning bets. -/
def payoutSum (winnerPool distributable : ℚ) (bets : List Bet) : ℚ :=
  (bets.map (fun b => roundDown4 (b.amount + b.amount / winnerPool * distributable))).sum

/-- The winner-pool figure selected by resolveMarket, Step 3. -/
def winnerPoolOf (m : Market) (cp : ℚ) : ℚ :=
  match resolutionWinner m.openPrice cp with
  | Outcome.up => m.poolUp
  | Outcome.down => m.poolDown

theorem matchCount_pos_of_mem {l : List Wallet} {uid : Nat} {w : Wallet}
    (hmem : w ∈ l) (hw : w.userId = some uid) : 1 ≤ matchCount l uid := by
  have hmf : w ∈ l.filter (fun v => v.userId = some uid) :=
    List.mem_filter.2 ⟨hmem, by simp [hw]⟩
  have hpos := List.length_pos.2 (List.ne_nil_of_mem hmf)
  rw [matchCount]
  omega

/-- Success-shape of the winner-payout loop: wallet identity columns are
untouched, the platform sum is unchanged, and the user sum grows by the
sum of the computed payouts. -/
theorem payoutLoop_ok_sums (base : List Wallet) (wn dist : ℚ) :
    ∀ (bets : List Bet) (ws : List Wallet) (bs : List Bet) (tl : List Transaction)
      (wsF : List Wallet) (bsF : List Bet) (tlF : List Transaction),
      (∀ w ∈ ws, (w.walletType = some WalletType.platformMM ↔ w.userId = none)) →
      (ws.filterMap Wallet.userId).Nodup →
      (∀ b ∈ bets, ∃ v ∈ ws, v.userId = some b.userId) →
      payoutLoop base wn dist bets ws bs tl = .ok (wsF, bsF, tlF) →
      wsF.map wKey = ws.map wKey ∧ platSumW wsF = platSumW ws ∧
        userSumW wsF = userSumW ws + payoutSum wn dist bets
  | [], ws, bs, tl, wsF, bsF, tlF, _, _, _, h => by
    rw [payoutLoop] at h
    simp only [Except.ok.injEq, Prod.mk.injEq] at h
    obtain ⟨h1, _, _⟩ := h
    subst h1
    simp [payoutSum]
  | bet :: rest, ws, bs, tl, wsF, bsF, tlF, hplat, hnd, hmem, h => by
    rw [payoutLoop] at h
    cases hcp : calculatePayout bet wn dist with
    | error e => simp [hcp] at h
    | ok payout =>
      simp only [hcp] at h
      cases hgw : WalletRepo.getByUserID base bet.userId with
      | error e => simp [hgw] at h
      | ok w =>
        simp only [hgw] at h
        have hkeys2 : (WalletRepo.addBalance ws bet.userId payout).map wKey = ws.map wKey := by
          rw [WalletRepo.addBalance]
          exact map_key_of_preserve _ (fun v => by split <;> rfl) ws
        have hplat2 := wkeys_platform_iff_transfer hkeys2 hplat
        have hnd2 := wkeys_nodup_transfer hkeys2 hnd
        have hmem2 : ∀ b ∈ rest, ∃ v ∈ WalletRepo.addBalance ws bet.userId payout,
            v.userId = some b.userId :=
          fun b hb => wkeys_exists_transfer hkeys2 (hmem b (by simp [hb]))
        obtain ⟨k1, k2, k3⟩ := payoutLoop_ok_sums base wn dist rest _ _ _ wsF bsF tlF
          hplat2 hnd2 hmem2 h
        obtain ⟨v, hv, hvu⟩ := hmem bet (by simp)
        have hcnt : matchCount ws bet.userId = 1 :=
          le_antisymm (matchCount_le_one _ ws hnd) (matchCount_pos_of_mem hv hvu)
        have haddu : userSumW (WalletRepo.addBalance ws bet.userId payout) =
            userSumW ws + payout := by
          rw [WalletRepo.addBalance, userSumW_map_add bet.userId payout ws hplat, hcnt]
          norm_num
        have haddp : platSumW (WalletRepo.addBalance ws bet.userId payout) = platSumW ws := by
          rw [WalletRepo.addBalance]
          exact platSumW_map_add bet.userId payout ws hplat
        have hpv : payout = roundDown4 (bet.amount + bet.amount / wn * dist) := by
          rw [calculatePayout] at hcp
          split at hcp
          · exact absurd hcp (by simp)
          · injection hcp with h'
            exact h'.symm
        refine ⟨k1.trans hkeys2, k2.trans haddp, ?_⟩
        rw [k3, haddu, hpv]
        simp [payoutSum]
        ring

/-- Each credited payout is the floored gross share, so the credited total
sits within `n / 10000` below the un-floored grosses. -/
theorem payoutSum_bounds (wn dist : ℚ) (hwn : 0 < wn) (hdist : 0 ≤ dist) :
    ∀ bets : List Bet, (∀ b ∈ bets, 0 ≤ b.amount) →
      stakeSum bets + stakeSum bets / wn * dist - bets.length / 10000
          ≤ payoutSum wn dist bets ∧
        payoutSum wn dist bets ≤ stakeSum bets + stakeSum bets / wn * dist
  | [], _ => by simp [stakeSum, payoutSum]
  | bet :: rest, hnn => by
    obtain ⟨ih1, ih2⟩ := payoutSum_bounds wn dist hwn hdist rest
      (fun b hb => hnn b (by simp [hb]))
    have hb0 : 0 ≤ bet.amount := hnn bet (by simp)
    have hterm : 0 ≤ bet.amount + bet.amount / wn * dist :=
      add_nonneg hb0 (mul_nonneg (div_nonneg hb0 hwn.le) hdist)
    have h1 := roundDown4_le _ hterm
    have h2 := lt_roundDown4_add _ hterm
    have hs : stakeSum (bet :: rest) = bet.amount + stakeSum rest := by
      simp [stakeSum]
    have hp : payoutSum wn dist (bet :: rest) =
        roundDown4 (bet.amount + bet.amount / wn * dist) + payoutSum wn dist rest := by
      simp [payoutSum]
    have hdiv : (bet.amount + stakeSum rest) / wn * dist =
        bet.amount / wn * dist + stakeSum rest / wn * dist := by ring
    rw [hs, hp, hdiv]
    simp only [List.length_cons]
    push_cast
    constructor <;> linarith

/-- When every bet belongs to the market, the winning-bet query filters by
direction alone. -/
theorem getByMarketAndOutcome_of_all {bets : List Bet} {mid : Nat}
    (h : ∀ b ∈ bets, b.marketId = mid) (d : Outcome) :
    BetRepo.getByMarketAndOutcome bets mid d = bets.filter (fun b => b.direction = d) := by
  rw [BetRepo.getByMarketAndOutcome]
  apply List.filter_congr
  intro b hb
  simp [h b hb]

theorem stakeSum_filter_eq_sumDir (d : Outcome) (bets : List Bet) :
    stakeSum (bets.filter (fun b => b.direction = d)) = sumDir d bets := rfl

theorem sumDir_nonneg (d : Outcome) {bets : List Bet}
    (hnn : ∀ x ∈ bets, 0 ≤ x.amount) : 0 ≤ sumDir d bets := by
  rw [sumDir]
  apply List.sum_nonneg
  intro x hx
  obtain ⟨y, hy, hxy⟩ := List.mem_map.1 hx
  rw [← hxy]
  exact hnn y (List.mem_of_mem_filter hy)

theorem sumDir_pos_of_mem {bets : List Bet} {d : Outcome} {b : Bet}
    (hb : b ∈ bets) (hd : b.direction = d) (hnn : ∀ x ∈ bets, 0 ≤ x.amount)
    (hba : 0 < b.amount) : 0 < sumDir d bets := by
  rw [sumDir]
  have hmf : b ∈ bets.filter (fun x => x.direction = d) :=
    List.mem_filter.2 ⟨hb, by simp [hd]⟩
  have hmem : b.amount ∈ (bets.filter (fun x => x.direction = d)).map Bet.amount :=
    List.mem_map_of_mem _ hmf
  have hle : b.amount ≤ ((bets.filter (fun x => x.direction = d)).map Bet.amount).sum := by
    apply List.single_le_sum _ _ hmem
    intro x hx
    obtain ⟨y, hy, hxy⟩ := List.mem_map.1 hx
    rw [← hxy]
    exact hnn y (List.mem_of_mem_filter hy)
  linarith

/-- Success-shape of resolveMarket with a committing transaction when UP
wins: the exact writes in terms of the payout loop's output. -/
theorem resolveMarket_ok_shape_up {cfg : Config} {st : SysState} {m : Market} {cp : ℚ}
    {s : SysState} (hwin : resolutionWinner m.openPrice cp = Outcome.up)
    (h : resolveMarket true cfg st m cp = .ok s) :
    ∃ ws bs tl pw ps wsFin ms,
      payoutLoop st.wallets m.poolUp (resolutionDistributable cfg m.poolDown)
          (BetRepo.getByMarketAndOutcome st.bets m.id Outcome.up)
          st.wallets st.bets st.txLog = .ok (ws, bs, tl) ∧
      WalletRepo.getPlatformWallet st.wallets = .ok pw ∧
      settleMMLoop m.id (pw.userId.getD 0) Outcome.up m.poolUp
          (resolutionDistributable cfg m.poolDown) st.mmPositions ws = .ok (ps, wsFin) ∧
      MarketRepo.resolve st.markets m.id cp Outcome.up = .ok ms ∧
      s = { wallets := wsFin, markets := ms,
            bets := BetRepo.updateStatusBulk bs m.id Outcome.down BetStatus.lost,
            mmPositions := ps,
            treasury := st.treasury ++ [(m.id, resolutionCommissionAmt cfg m.TotalPool)],
            txLog := tl, nextBetId := st.nextBetId } := by
  rw [resolveMarket] at h
  simp only [hwin] at h
  split at h
  · exact absurd h (by simp)
  · rename_i ws bs tl hp
    split at h
    · exact absurd h (by simp)
    · rename_i pw hpw
      split at h
      · exact absurd h (by simp)
      · rename_i ps wsFin hsettle
        split at h
        · exact absurd h (by simp)
        · rename_i ms hres
          simp only [if_true] at h
          injection h with h'
          exact ⟨ws, bs, tl, pw, ps, wsFin, ms, hp, hpw, hsettle, hres, h'.symm⟩

/-- Success-shape of resolveMarket with a committing transaction when DOWN
wins. -/
theorem resolveMarket_ok_shape_down {cfg : Config} {st : SysState} {m : Market} {cp : ℚ}
    {s : SysState} (hwin : resolutionWinner m.openPrice cp = Outcome.down)
    (h : resolveMarket true cfg st m cp = .ok s) :
    ∃ ws bs tl pw ps wsFin ms,
      payoutLoop st.wallets m.poolDown (resolutionDistributable cfg m.poolUp)
          (BetRepo.getByMarketAndOutcome st.bets m.id Outcome.down)
          st.wallets st.bets st.txLog = .ok (ws, bs, tl) ∧
      WalletRepo.getPlatformWallet st.wallets = .ok pw ∧
      settleMMLoop m.id (pw.userId.getD 0) Outcome.down m.poolDown
          (resolutionDistributable cfg m.poolUp) st.mmPositions ws = .ok (ps, wsFin) ∧
      MarketRepo.resolve st.markets m.id cp Outcome.down = .ok ms ∧
      s = { wallets := wsFin, markets := ms,
            bets := BetRepo.updateStatusBulk bs m.id Outcome.up BetStatus.lost,
            mmPositions := ps,
            treasury := st.treasury ++ [(m.id, resolutionCommissionAmt cfg m.TotalPool)],
            txLog := tl, nextBetId := st.nextBetId } := by
  rw [resolveMarket] at h
  simp only [hwin] at h
  split at h
  · exact absurd h (by simp)
  · rename_i ws bs tl hp
    split at h
    · exact absurd h (by simp)
    · rename_i pw hpw
      split at h
      · exact absurd h (by simp)
      · rename_i ps wsFin hsettle
        split at h
        · exact absurd h (by simp)
        · rename_i ms hres
          simp only [if_true] at h
          injection h with h'
          exact ⟨ws, bs, tl, pw, ps, wsFin, ms, hp, hpw, hsettle, hres, h'.symm⟩

/-- C1 (amended): along a trace of bet placements on a clean single open
market followed by one committed resolution with at least one winning
bet, the conservation quantity of spec §8 (user wallet deltas + platform
wallet delta + house treasury for the market) does not vanish: it equals
the commission rate times the winner pool, up to the documented rounding
slack of 1/10000 per payout.  The treasury row records commission on the
total pool while only the loser-pool commission is actually withheld from
the payouts, so the books create `c × winner_pool` out of nothing. -/
theorem C1_conservation_amended (cfg : Config) (st0 : SysState) (m0 mP : Market)
    (reqs : List PlaceReq) (cp : ℚ) (fin : SysState)
    (hcs : CleanStart st0 m0)
    (hc0 : 0 ≤ cfg.wallet.commissionRate) (hc1 : cfg.wallet.commissionRate ≤ 1)
    (hm : (applyPlaces cfg m0.id reqs st0).markets = [mP])
    (hwb : ∃ b ∈ (applyPlaces cfg m0.id reqs st0).bets,
        b.direction = resolutionWinner mP.openPrice cp)
    (hres : resolveMarket true cfg (applyPlaces cfg m0.id reqs st0) mP cp = .ok fin) :
    cfg.wallet.commissionRate * winnerPoolOf mP cp -
        (BetRepo.getByMarketAndOutcome (applyPlaces cfg m0.id reqs st0).bets mP.id
          (resolutionWinner mP.openPrice cp)).length / 10000
      ≤ conservationSum st0 fin m0.id ∧
    conservationSum st0 fin m0.id ≤ cfg.wallet.commissionRate * winnerPoolOf mP cp := by
  have hinv : C1Inv st0 m0 (applyPlaces cfg m0.id reqs st0) :=
    applyPlaces_inv hcs reqs st0 (cleanStart_inv hcs)
  obtain ⟨mP', hms, hidp, hstat, hopenp, hpu, hpd⟩ := hinv.market_shape
  rw [hm] at hms
  injection hms with hmp hnil
  subst hmp
  have hplat_st := wkeys_platform_iff_transfer hinv.wallets_keys hcs.plat_iff
  have hnd_st := wkeys_nodup_transfer hinv.wallets_keys hcs.uids_nodup
  have hbnn : ∀ b ∈ (applyPlaces cfg m0.id reqs st0).bets, 0 ≤ b.amount := by
    intro b hb
    have := (hinv.bets_ok b hb).2.2.1
    linarith
  have hbmid : ∀ b ∈ (applyPlaces cfg m0.id reqs st0).bets, b.marketId = mP.id := by
    intro b hb
    rw [(hinv.bets_ok b hb).2.1]
    exact hidp.symm
  obtain ⟨bw, hbw, hbwd⟩ := hwb
  have hbw10 : (10:ℚ) ≤ bw.amount := (hinv.bets_ok bw hbw).2.2.1
  rw [getByMarketAndOutcome_of_all hbmid]
  cases hwin : resolutionWinner mP.openPrice cp with
  | up =>
    simp only [winnerPoolOf, hwin]
    have hbwu : bw.direction = Outcome.up := by rw [hbwd, hwin]
    obtain ⟨ws, bs, tl, pw, ps, wsFin, ms, hp, hpw, hsettle, hres2, hfin⟩ :=
      resolveMarket_ok_shape_up hwin hres
    rw [getByMarketAndOutcome_of_all hbmid] at hp
    have hW : 0 < mP.poolUp := by
      rw [hpu]
      exact sumDir_pos_of_mem hbw hbwu hbnn (by linarith)
    have hLnn : 0 ≤ sumDir Outcome.down (applyPlaces cfg m0.id reqs st0).bets :=
      sumDir_nonneg _ hbnn
    have hdist_nn : 0 ≤ resolutionDistributable cfg mP.poolDown := by
      rw [resolutionDistributable, hpd]
      exact mul_nonneg hLnn (by linarith)
    have hmemb : ∀ b ∈ (applyPlaces cfg m0.id reqs st0).bets.filter
        (fun b => b.direction = Outcome.up),
        ∃ v ∈ (applyPlaces cfg m0.id reqs st0).wallets, v.userId = some b.userId :=
      fun b hb => (hinv.bets_ok b (List.mem_of_mem_filter hb)).2.2.2
    obtain ⟨hk, hpl, hus⟩ := payoutLoop_ok_sums _ _ _ _ _ _ _ _ _ _ hplat_st hnd_st hmemb hp
    obtain ⟨hlo, hhi⟩ := payoutSum_bounds mP.poolUp (resolutionDistributable cfg mP.poolDown)
      hW hdist_nn
      ((applyPlaces cfg m0.id reqs st0).bets.filter (fun b => b.direction = Outcome.up))
      (fun b hb => hbnn b (List.mem_of_mem_filter hb))
    have hsw : stakeSum ((applyPlaces cfg m0.id reqs st0).bets.filter
        (fun b => b.direction = Outcome.up)) = mP.poolUp := by
      rw [stakeSum_filter_eq_sumDir]
      exact hpu.symm
    simp only [hinv.mm_nil, settleMMLoop] at hsettle
    simp only [Except.ok.injEq, Prod.mk.injEq] at hsettle
    obtain ⟨hps, hwsFin⟩ := hsettle
    have hfw : fin.wallets = wsFin := by rw [hfin]
    have hft : fin.treasury =
        (applyPlaces cfg m0.id reqs st0).treasury ++
          [(mP.id, resolutionCommissionAmt cfg mP.TotalPool)] := by rw [hfin]
    simp only [conservationSum, userWalletSum, platformWalletSum, treasuryFor]
    rw [hfw, hft, hinv.treas_nil, ← hwsFin, hus, hpl, hinv.user_sum, hinv.plat_sum]
    rw [hsw, div_self (ne_of_gt hW), one_mul] at hlo hhi
    have hde : resolutionDistributable cfg mP.poolDown =
        mP.poolDown * (1 - cfg.wallet.commissionRate) := rfl
    have hca : resolutionCommissionAmt cfg mP.TotalPool =
        (mP.poolUp + mP.poolDown) * cfg.wallet.commissionRate := rfl
    simp only [List.nil_append, List.filter_cons, List.filter_nil, List.map_cons,
      List.map_nil, List.sum_cons, List.sum_nil, hidp, decide_True, if_true, add_zero]
    constructor <;> linarith [hlo, hhi, hpu, hpd, hde, hca]
  | down =>
    simp only [winnerPoolOf, hwin]
    have hbwu : bw.direction = Outcome.down := by rw [hbwd, hwin]
    obtain ⟨ws, bs, tl, pw, ps, wsFin, ms, hp, hpw, hsettle, hres2, hfin⟩ :=
      resolveMarket_ok_shape_down hwin hres
    rw [getByMarketAndOutcome_of_all hbmid] at hp
    have hW : 0 < mP.poolDown := by
      rw [hpd]
      exact sumDir_pos_of_mem hbw hbwu hbnn (by linarith)
    have hLnn : 0 ≤ sumDir Outcome.up (applyPlaces cfg m0.id reqs st0).bets :=
      sumDir_nonneg _ hbnn
    have hdist_nn : 0 ≤ resolutionDistributable cfg mP.poolUp := by
      rw [resolutionDistributable, hpu]
      exact mul_nonneg hLnn (by linarith)
    have hmemb : ∀ b ∈ (applyPlaces cfg m0.id reqs st0).bets.filter
        (fun b => b.direction = Outcome.down),
        ∃ v ∈ (applyPlaces cfg m0.id reqs st0).wallets, v.userId = some b.userId :=
      fun b hb => (hinv.bets_ok b (List.mem_of_mem_filter hb)).2.2.2
    obtain ⟨hk, hpl, hus⟩ := payoutLoop_ok_sums _ _ _ _ _ _ _ _ _ _ hplat_st hnd_st hmemb hp
    obtain ⟨hlo, hhi⟩ := payoutSum_bounds mP.poolDown (resolutionDistributable cfg mP.poolUp)
      hW hdist_nn
      ((applyPlaces cfg m0.id reqs st0).bets.filter (fun b => b.direction = Outcome.down))
      (fun b hb => hbnn b (List.mem_of_mem_filter hb))
    have hsw : stakeSum ((applyPlaces cfg m0.id reqs st0).bets.filter
        (fun b => b.direction = Outcome.down)) = mP.poolDown := by
      rw [stakeSum_filter_eq_sumDir]
      exact hpd.symm
    simp only [hinv.mm_nil, settleMMLoop] at hsettle
    simp only [Except.ok.injEq, Prod.mk.injEq] at hsettle
    obtain ⟨hps, hwsFin⟩ := hsettle
    have hfw : fin.wallets = wsFin := by rw [hfin]
    have hft : fin.treasury =
        (applyPlaces cfg m0.id reqs st0).treasury ++
          [(mP.id, resolutionCommissionAmt cfg mP.TotalPool)] := by rw [hfin]
    simp only [conservationSum, userWalletSum, platformWalletSum, treasuryFor]
    rw [hfw, hft, hinv.treas_nil, ← hwsFin, hus, hpl, hinv.user_sum, hinv.plat_sum]
    rw [hsw, div_self (ne_of_gt hW), one_mul] at hlo hhi
    have hde : resolutionDistributable cfg mP.poolUp =
        mP.poolUp * (1 - cfg.wallet.commissionRate) := rfl
    have hca : resolutionCommissionAmt cfg mP.TotalPool =
        (mP.poolUp + mP.poolDown) * cfg.wallet.commissionRate := rfl
    simp only [List.nil_append, List.filter_cons, List.filter_nil, List.map_cons,
      List.map_nil, List.sum_cons, List.sum_nil, hidp, decide_True, if_true, add_zero]
    constructor <;> linarith [hlo, hhi, hpu, hpd, hde, hca]

/-- User 1's wallet for the conservation trace. -/
def c1W1 : Wallet :=
  { id := 1, userId := some 1, walletType := none, balance := 2000, locked := 0 }

/-- User 2's wallet for the conservation trace. -/
def c1W2 : Wallet :=
  { id := 2, userId := some 2, walletType := none, balance := 1000, locked := 0 }

/-- Platform MM wallet (NULL user id) for the conservation trace. -/
def c1WP : Wallet :=
  { id := 3, userId := none, walletType := some WalletType.platformMM, balance := 500,
    locked := 0 }

/-- The open market of the conservation trace (id 7, opened at 100). -/
def c1Market : Market :=
  { id := 7, status := MarketStatus.open', openPrice := some 100, closePrice := none,
    result := none, poolUp := 0, poolDown := 0, closesAt := 1000 }

/-- Clean-start ledger of the conservation trace. -/
def c1Start : SysState :=
  { wallets := [c1W1, c1W2, c1WP], markets := [c1Market], bets := [], mmPositions := [],
    treasury := [], txLog := [], nextBetId := 0 }

/-- The two placements: 1000 on UP by user 1, 500 on DOWN by user 2. -/
def c1Reqs : List PlaceReq :=
  [{ userId := 1, direction := Outcome.up, amount := 1000 },
   { userId := 2, direction := Outcome.down, amount := 500 }]

/-- The market as it stands after the two placements. -/
def c1MP : Market := { c1Market with poolUp := 1000, poolDown := 500 }

/-- User 1's bet row. -/
def c1Bet0 : Bet := mkBet 0 1 7 Outcome.up 1000 1

/-- User 2's bet row. -/
def c1Bet1 : Bet := mkBet 1 2 7 Outcome.down 500 1

/-- Audit entry of the first placement. -/
def c1Txn0 : Transaction :=
  { walletId := 1, type := TxType.betLock, amount := 1000, balanceBefore := 2000,
    balanceAfter := 1000, refBet := some 0 }

/-- Audit entry of the second placement. -/
def c1Txn1 : Transaction :=
  { walletId := 2, type := TxType.betLock, amount := 500, balanceBefore := 1000,
    balanceAfter := 500, refBet := some 1 }

/-- Ledger after the two placements. -/
def c1Mid : SysState :=
  { wallets := [{ c1W1 with balance := 1000 }, { c1W2 with balance := 500 }, c1WP],
    markets := [c1MP], bets := [c1Bet0, c1Bet1], mmPositions := [], treasury := [],
    txLog := [c1Txn0, c1Txn1], nextBetId := 2 }

/-- Audit entry of the winner's payout at resolution. -/
def c1Txn2 : Transaction :=
  { walletId := 1, type := TxType.payout, amount := 1485, balanceBefore := 1000,
    balanceAfter := 2485, refBet := some 0 }

/-- Ledger after resolving the market at close price 120: user 1 is paid
1485 (stake 1000 plus 1000/1000 of the distributable 485), user 2's bet
is lost, and the treasury records 45 = 0.03 × 1500. -/
def c1Fin : SysState :=
  { wallets := [{ c1W1 with balance := 2485 }, { c1W2 with balance := 500 }, c1WP],
    markets :=
      [{ c1MP with
          status := MarketStatus.resolved
          closePrice := some 120
          result := some Outcome.up }],
    bets := [{ c1Bet0 with status := BetStatus.won, payout := some 1485 },
             { c1Bet1 with status := BetStatus.lost }],
    mmPositions := [], treasury := [(7, 45)], txLog := [c1Txn0, c1Txn1, c1Txn2],
    nextBetId := 2 }

theorem c1_place_eval : applyPlaces stdCfg 7 c1Reqs c1Start = c1Mid := by
  norm_num [applyPlaces, placeBet, WalletRepo.deductBalance, WalletRepo.getByUserID,
    MarketRepo.getByID, MarketRepo.updatePools, Market.IsOpen, Market.OddsFor,
    Market.UpOdds, Market.DownOdds, Market.effectivePool, Market.TotalPool,
    CommissionRate, Wallet.Available, List.find?, List.any, List.filter,
    c1Start, c1Reqs, c1W1, c1W2, c1WP, c1Market, c1Mid, c1MP, c1Bet0, c1Bet1,
    c1Txn0, c1Txn1, mkBet, stdCfg]
  all_goals simp

theorem c1_resolve_eval : resolveMarket true stdCfg c1Mid c1MP 120 = .ok c1Fin := by
  norm_num [resolveMarket, resolutionWinner, resolutionCommissionAmt,
    resolutionDistributable, BetRepo.getByMarketAndOutcome, payoutLoop, calculatePayout,
    BetRepo.updateStatus, BetRepo.updateStatusBulk, WalletRepo.getPlatformWallet,
    WalletRepo.addBalance, WalletRepo.getByUserID, settleMMLoop, MarketRepo.resolve,
    Market.TotalPool, roundDown4, List.filter, List.find?, List.any,
    c1Mid, c1MP, c1Market, c1Bet0, c1Bet1, c1W1, c1W2, c1WP, c1Fin, c1Txn0, c1Txn1,
    c1Txn2, mkBet, stdCfg]
  all_goals simp

theorem c1_conservation_eval : conservationSum c1Start c1Fin 7 = 30 := by
  norm_num [conservationSum, userWalletSum, platformWalletSum, userSumW, platSumW,
    treasuryFor, List.filter, c1Start, c1Fin, c1W1, c1W2, c1WP]
  all_goals simp
  all_goals norm_num

/-- C1 (counterexample to the spec's conservation property): on the
two-bet trace (1000 UP by user 1, 500 DOWN by user 2, resolved at close
120 with a single payout), the user wallet deltas (+485 and −500), the
platform wallet delta (0) and the treasury row (45) sum to 30, while the
allowed rounding slack — 1/10000 per payout, one payout here — is far
below 30.  The 30 is exactly 0.03 × 1000: commission booked on the
winner pool that no wallet ever paid. -/
theorem C1_counterexample :
    applyPlaces stdCfg 7 c1Reqs c1Start = c1Mid ∧
    resolveMarket true stdCfg c1Mid c1MP 120 = .ok c1Fin ∧
    conservationSum c1Start c1Fin 7 = 30 ∧
    ((c1Fin.txLog.filter (fun t => t.type = TxType.payout)).length : ℚ) / 10000 < 30 :=
  ⟨c1_place_eval, c1_resolve_eval, c1_conservation_eval, by
    norm_num [c1Fin, c1Txn0, c1Txn1, c1Txn2, List.filter]
    all_goals simp
    all_goals norm_num⟩

/-- Witness for the amended conservation bound at the concrete two-bet
trace: the discrepancy 30 equals 0.03 × 1000 exactly, within the
one-payout rounding slack. -/
theorem C1_conservation_amended_witness :
    stdCfg.wallet.commissionRate * winnerPoolOf c1MP 120 -
        (BetRepo.getByMarketAndOutcome (applyPlaces stdCfg 7 c1Reqs c1Start).bets c1MP.id
          (resolutionWinner c1MP.openPrice 120)).length / 10000
      ≤ conservationSum c1Start c1Fin 7 ∧
    conservationSum c1Start c1Fin 7 ≤ stdCfg.wallet.commissionRate * winnerPoolOf c1MP 120 :=
  C1_conservation_amended stdCfg c1Start c1Market c1MP c1Reqs 120 c1Fin
    (by
      refine ⟨rfl, rfl, rfl, rfl, rfl, rfl, rfl, ?_, ?_⟩
      · intro w hw
        simp only [c1Start, List.mem_cons, List.not_mem_nil, or_false] at hw
        rcases hw with h | h | h <;> subst h <;> simp [c1W1, c1W2, c1WP]
      · simp [c1Start, c1W1, c1W2, c1WP, List.filterMap])
    (by norm_num [stdCfg])
    (by norm_num [stdCfg])
    (by
      show (applyPlaces stdCfg 7 c1Reqs c1Start).markets = [c1MP]
      rw [c1_place_eval]
      rfl)
    (by
      show ∃ b ∈ (applyPlaces stdCfg 7 c1Reqs c1Start).bets,
        b.direction = resolutionWinner c1MP.openPrice 120
      rw [c1_place_eval]
      refine ⟨c1Bet0, by simp [c1Mid], ?_⟩
      norm_num [c1Bet0, mkBet, c1MP, c1Market, resolutionWinner])
    (by
      show resolveMarket true stdCfg (applyPlaces stdCfg 7 c1Reqs c1Start) c1MP 120 =
        .ok c1Fin
      rw [c1_place_eval]
      exact c1_resolve_eval)
